import Mathlib

/-!
Verification of the LLrdc remote-desktop server core against its
natural-language specification.  The Go sources under `cmd/server/` are
shallowly embedded: byte streams become `List Nat` (each element a byte
value), Go integers become `Int`/`Nat` with explicit truncating division
where the source divides, and the stateful handlers become explicit
state-passing functions together with event traces.
-/

namespace LLrdc

/-! ## Container de-muxer (`splitIVF`, cmd/server/ffmpeg.go)

The de-muxer reads a 32-byte file header whose first four bytes must be
the ASCII magic "DKIF", then repeatedly reads a 12-byte frame header
whose first four bytes are the little-endian frame size, then the frame
payload.  `io.ReadFull` fails (and the loop returns) whenever fewer
bytes remain than requested. -/

/-- Byte values of the ASCII magic "DKIF". -/
def dkifMagic : List Nat := [68, 75, 73, 70]

/-- Little-endian 32-bit decode of the first four bytes of a list,
mirroring `binary.LittleEndian.Uint32(frameHeader[0:4])`. -/
def leUint32 (b : List Nat) : Nat :=
  b.getD 0 0 + 256 * b.getD 1 0 + 65536 * b.getD 2 0 + 16777216 * b.getD 3 0

/-- Frame loop of `splitIVF`: read a 12-byte frame header, decode the
little-endian size from its first 4 bytes, read that many payload bytes
and emit them, until a read comes up short. -/
def splitIVFFrames (bytes : List Nat) : List (List Nat) :=
  if bytes.length < 12 then []
  else
    let frameSize := leUint32 ((bytes.take 12).take 4)
    let rest := bytes.drop 12
    if rest.length < frameSize then []
    else (rest.take frameSize) :: splitIVFFrames (rest.drop frameSize)
termination_by bytes.length
decreasing_by
  simp only [List.length_drop] at *
  omega

/-- Embedding of `splitIVF` (cmd/server/ffmpeg.go): read the 32-byte
file header (returning no frames if the stream is shorter), validate the
"DKIF" magic (returning no frames on mismatch), then run the frame
loop on the remainder. -/
def splitIVF (bytes : List Nat) : List (List Nat) :=
  if bytes.length < 32 then []
  else if bytes.take 4 ≠ dkifMagic then []
  else splitIVFFrames (bytes.drop 32)

/-- Little-endian 32-bit encode, the inverse of `leUint32` below 2^32. -/
def le32 (n : Nat) : List Nat :=
  [n % 256, n / 256 % 256, n / 65536 % 256, n / 16777216 % 256]

/-- Serialized IVF body: each frame is a 12-byte header (4-byte
little-endian payload size, 8 timestamp bytes) followed by the payload. -/
def encodeIVFBody : List (List Nat × List Nat) → List Nat
  | [] => []
  | (p, ts) :: rest => le32 p.length ++ ts ++ p ++ encodeIVFBody rest

/-- Serialized IVF stream: the 4-byte magic, 28 further header bytes,
then the body. -/
def encodeIVF (headerTail : List Nat) (l : List (List Nat × List Nat)) : List Nat :=
  dkifMagic ++ headerTail ++ encodeIVFBody l

theorem leUint32_le32 (n : Nat) (h : n < 4294967296) : leUint32 (le32 n) = n := by
  simp only [leUint32, le32, List.getD]
  simp only [List.get?_eq_getElem?, List.getElem?_cons_zero, List.getElem?_cons_succ,
    Option.getD_some]
  omega

theorem take_append_len {α : Type} (l₁ l₂ : List α) : (l₁ ++ l₂).take l₁.length = l₁ := by
  induction l₁ with
  | nil => simp
  | cons a t ih => simp [ih]

theorem drop_append_len {α : Type} (l₁ l₂ : List α) : (l₁ ++ l₂).drop l₁.length = l₂ := by
  induction l₁ with
  | nil => simp
  | cons a t ih => simp [ih]

theorem splitIVFFrames_encode (l : List (List Nat × List Nat))
    (hl : ∀ pts ∈ l, (pts.1).length < 4294967296 ∧ (pts.2).length = 8) :
    splitIVFFrames (encodeIVFBody l) = l.map Prod.fst := by
  induction l with
  | nil =>
    rw [splitIVFFrames]
    simp [encodeIVFBody]
  | cons pts rest ih =>
    obtain ⟨p, ts⟩ := pts
    obtain ⟨hp, hts⟩ := hl (p, ts) (List.mem_cons_self _ _)
    have hrest : ∀ pts ∈ rest, (pts.1).length < 4294967296 ∧ (pts.2).length = 8 :=
      fun x hx => hl x (List.mem_cons_of_mem _ hx)
    have hassoc : encodeIVFBody ((p, ts) :: rest) =
        (le32 p.length ++ ts) ++ (p ++ encodeIVFBody rest) := by
      simp [encodeIVFBody, List.append_assoc]
    have hlen12 : (le32 p.length ++ ts).length = 12 := by
      simp [le32, hts]
    rw [splitIVFFrames, hassoc]
    have hlenall : ((le32 p.length ++ ts) ++ (p ++ encodeIVFBody rest)).length =
        12 + (p.length + (encodeIVFBody rest).length) := by
      rw [List.length_append, hlen12, List.length_append]
    rw [hlenall]
    have hnot12 : ¬ (12 + (p.length + (encodeIVFBody rest).length) < 12) := by omega
    simp only [hnot12, if_false]
    have htake12 : ((le32 p.length ++ ts) ++ (p ++ encodeIVFBody rest)).take 12 =
        le32 p.length ++ ts := by
      have := take_append_len (le32 p.length ++ ts) (p ++ encodeIVFBody rest)
      rwa [hlen12] at this
    have hdrop12 : ((le32 p.length ++ ts) ++ (p ++ encodeIVFBody rest)).drop 12 =
        p ++ encodeIVFBody rest := by
      have := drop_append_len (le32 p.length ++ ts) (p ++ encodeIVFBody rest)
      rwa [hlen12] at this
    have htake4 : (le32 p.length ++ ts).take 4 = le32 p.length := by
      have : (le32 p.length).length = 4 := by simp [le32]
      have h4 := take_append_len (le32 p.length) ts
      rwa [this] at h4
    rw [htake12, hdrop12, htake4, leUint32_le32 p.length hp]
    have hlen2 : (p ++ encodeIVFBody rest).length = p.length + (encodeIVFBody rest).length := by
      simp
    have hnotshort : ¬ ((p ++ encodeIVFBody rest).length < p.length) := by
      rw [hlen2]; omega
    rw [if_neg hnotshort]
    rw [take_append_len, drop_append_len]
    simp [ih hrest]

/-- C5: on a well-formed IVF stream (32-byte header starting with
"DKIF", then frames each with a 12-byte header carrying the
little-endian payload size), `splitIVF` emits exactly the payloads, once
each, in stream order, with no container framing; and any stream whose
first four bytes are not "DKIF" (or that is shorter than the 32-byte
header) yields no frames at all. -/
theorem splitIVF_correct :
    (∀ (headerTail : List Nat) (l : List (List Nat × List Nat)),
      headerTail.length = 28 →
      (∀ pts ∈ l, (pts.1).length < 4294967296 ∧ (pts.2).length = 8) →
      splitIVF (encodeIVF headerTail l) = l.map Prod.fst) ∧
    (∀ bytes : List Nat, bytes.take 4 ≠ dkifMagic → splitIVF bytes = []) := by
  constructor
  · intro headerTail l hht hl
    have hassoc : encodeIVF headerTail l =
        (dkifMagic ++ headerTail) ++ encodeIVFBody l := by
      simp [encodeIVF, List.append_assoc]
    have hlen32 : (dkifMagic ++ headerTail).length = 32 := by
      simp [dkifMagic, hht]
    rw [splitIVF, hassoc]
    have hlenall : ((dkifMagic ++ headerTail) ++ encodeIVFBody l).length =
        32 + (encodeIVFBody l).length := by
      rw [List.length_append, hlen32]
    have hnot32 : ¬ (((dkifMagic ++ headerTail) ++ encodeIVFBody l).length < 32) := by
      rw [hlenall]; omega
    simp only [hnot32, if_false]
    have htake4 : ((dkifMagic ++ headerTail) ++ encodeIVFBody l).take 4 = dkifMagic := by
      rw [List.append_assoc]
      have : (dkifMagic : List Nat).length = 4 := by simp [dkifMagic]
      have h4 := take_append_len (dkifMagic) (headerTail ++ encodeIVFBody l)
      rwa [this] at h4
    rw [htake4]
    simp only [ne_eq, not_true_eq_false, if_false]
    have hdrop32 : ((dkifMagic ++ headerTail) ++ encodeIVFBody l).drop 32 = encodeIVFBody l := by
      have := drop_append_len (dkifMagic ++ headerTail) (encodeIVFBody l)
      rwa [hlen32] at this
    rw [hdrop32]
    exact splitIVFFrames_encode l hl
  · intro bytes hb
    rw [splitIVF]
    by_cases hlen : bytes.length < 32
    · simp [hlen]
    · simp [hlen, hb]

/-- Witness for `splitIVF_correct`: a concrete two-frame stream
round-trips, and a stream with a corrupted magic yields no frames. -/
theorem splitIVF_correct_witness :
    splitIVF (encodeIVF (List.replicate 28 0)
      [([9, 8, 7], List.replicate 8 1), ([5], List.replicate 8 2)]) = [[9, 8, 7], [5]] ∧
    splitIVF (99 :: List.replicate 40 0) = [] := by
  constructor
  · exact (splitIVF_correct.1 (List.replicate 28 0)
      [([9, 8, 7], List.replicate 8 1), ([5], List.replicate 8 2)]
      (by decide) (by decide))
  · exact splitIVF_correct.2 (99 :: List.replicate 40 0) (by decide)

/-! ## Quality-mode rate-control mapping (cmd/server/ffmpeg.go, `startStreaming`)

In quality mode the encoder arguments are derived from `targetQuality`:
`crf := 50 - (quality-10)*46/90` (Go truncating division, mirrored by
`Int.tdiv`), clamped by two sequential ifs into `[4, 63]`;
`maxKbps := 2000 + (quality-10)*18000/90`; `bufsize := maxKbps/5`. -/

/-- Quantizer derived from a quality value, mirroring the quality branch
of `startStreaming`. -/
def crfOfQuality (quality : Int) : Int :=
  let crf := 50 - Int.tdiv ((quality - 10) * 46) 90
  let crf := if crf < 4 then 4 else crf
  if crf > 63 then 63 else crf

/-- Maxrate in kbps derived from a quality value. -/
def maxKbpsOfQuality (quality : Int) : Int :=
  2000 + Int.tdiv ((quality - 10) * 18000) 90

/-- Buffer size in kbps: `maxKbps / 5` (Go truncating division). -/
def bufKbpsOfQuality (quality : Int) : Int :=
  Int.tdiv (maxKbpsOfQuality quality) 5

/-- C8: for quality in `[10, 100]` the quantizer equals the clamped
linear map `clamp (50 - (q-10)*46/90) 4 63` in integer arithmetic (in
particular quality 10 gives 50 and quality 100 gives 4), the maxrate is
`2000 + (q-10)*18000/90` kbps, and the buffer is exactly 20% of the
maxrate (the division by 5 loses nothing because the maxrate is always a
multiple of 5). -/
theorem quality_mapping (q : Int) (h10 : 10 ≤ q) (h100 : q ≤ 100) :
    crfOfQuality q = max 4 (min 63 (50 - Int.tdiv ((q - 10) * 46) 90)) ∧
    crfOfQuality 10 = 50 ∧ crfOfQuality 100 = 4 ∧
    maxKbpsOfQuality q = 2000 + Int.tdiv ((q - 10) * 18000) 90 ∧
    5 * bufKbpsOfQuality q = maxKbpsOfQuality q := by
  refine ⟨?_, by decide, by decide, rfl, ?_⟩
  · interval_cases q <;> decide
  · interval_cases q <;> decide

/-- Witness for `quality_mapping` at quality 70 (the default). -/
theorem quality_mapping_witness :
    crfOfQuality 70 = max 4 (min 63 (50 - Int.tdiv ((70 - 10) * 46) 90)) ∧
    5 * bufKbpsOfQuality 70 = maxKbpsOfQuality 70 := by
  obtain ⟨h1, _, _, _, h5⟩ := quality_mapping 70 (by decide) (by decide)
  exact ⟨h1, h5⟩

/-! ## Encoder config registry (cmd/server/ffmpeg.go globals and setters)

The mutable globals guarded by `ffmpegMutex` become an explicit state.
`cmdSet` models `ffmpegCmd != nil && ffmpegCmd.Process != nil` (the
handle stays set until the supervisor loop replaces it); `procAlive`
models whether the child process is still alive; `deaths` counts child
exits — the supervisor loop performs exactly one respawn per child exit,
so the number of encoder restarts a handler causes equals the number of
deaths it causes.  Each setter also returns the trace of writes and
kill calls it performs, so ordering claims can be stated. -/

/-- Primitive effects of the config setters: a field write or a
`Process.Kill()` call. -/
inductive CEvent
  | wVBR (b : Bool)
  | wCpuEffort (n : Int)
  | wCpuThreads (n : Int)
  | wDrawMouse (b : Bool)
  | wMode (m : String)
  | wBandwidth (n : Int)
  | wQuality (n : Int)
  | wFPS (n : Int)
  | kill
deriving DecidableEq, Repr

/-- State of the encoder-related globals in cmd/server/ffmpeg.go. -/
structure FfmpegState where
  targetMode : String
  targetBandwidthMbps : Int
  targetQuality : Int
  targetVBR : Bool
  targetCpuEffort : Int
  targetCpuThreads : Int
  targetDrawMouse : Bool
  FPS : Int
  cmdSet : Bool
  procAlive : Bool
  deaths : Nat
deriving DecidableEq, Repr

/-- Initial values of the globals (ffmpeg.go lines 14-26, FPS default
from config.go) with a running encoder child. -/
def initFfmpeg : FfmpegState :=
  { targetMode := "bandwidth", targetBandwidthMbps := 5, targetQuality := 70,
    targetVBR := true, targetCpuEffort := 6, targetCpuThreads := 4,
    targetDrawMouse := true, FPS := 30, cmdSet := true, procAlive := true, deaths := 0 }

/-- Model of `ffmpegCmd.Process.Kill()` guarded by
`if ffmpegCmd != nil && ffmpegCmd.Process != nil`: the kill call happens
whenever the handle is set, but only an alive child dies (killing an
already-killed child is a no-op at the process level). -/
def killProcess (s : FfmpegState) : List CEvent × FfmpegState :=
  if s.cmdSet then
    ([CEvent.kill],
     if s.procAlive then { s with procAlive := false, deaths := s.deaths + 1 } else s)
  else ([], s)

/-- Embedding of `SetVBR`: write the field, then kill if the handle is set. -/
def SetVBR (b : Bool) (s : FfmpegState) : List CEvent × FfmpegState :=
  let r := killProcess { s with targetVBR := b }
  (CEvent.wVBR b :: r.1, r.2)

/-- Embedding of `SetCpuEffort`. -/
def SetCpuEffort (n : Int) (s : FfmpegState) : List CEvent × FfmpegState :=
  let r := killProcess { s with targetCpuEffort := n }
  (CEvent.wCpuEffort n :: r.1, r.2)

/-- Embedding of `SetCpuThreads`. -/
def SetCpuThreads (n : Int) (s : FfmpegState) : List CEvent × FfmpegState :=
  let r := killProcess { s with targetCpuThreads := n }
  (CEvent.wCpuThreads n :: r.1, r.2)

/-- Embedding of `SetDrawMouse`. -/
def SetDrawMouse (b : Bool) (s : FfmpegState) : List CEvent × FfmpegState :=
  let r := killProcess { s with targetDrawMouse := b }
  (CEvent.wDrawMouse b :: r.1, r.2)

/-- Embedding of `SetBandwidth`: writes `targetMode = "bandwidth"` and the
bandwidth, then kills. -/
def SetBandwidth (n : Int) (s : FfmpegState) : List CEvent × FfmpegState :=
  let r := killProcess { s with targetMode := "bandwidth", targetBandwidthMbps := n }
  (CEvent.wMode "bandwidth" :: CEvent.wBandwidth n :: r.1, r.2)

/-- Embedding of `SetQuality`: writes `targetMode = "quality"` and the
quality, then kills. -/
def SetQuality (n : Int) (s : FfmpegState) : List CEvent × FfmpegState :=
  let r := killProcess { s with targetMode := "quality", targetQuality := n }
  (CEvent.wMode "quality" :: CEvent.wQuality n :: r.1, r.2)

/-- Embedding of `SetFramerate`: writes `FPS`, then kills. -/
def SetFramerate (n : Int) (s : FfmpegState) : List CEvent × FfmpegState :=
  let r := killProcess { s with FPS := n }
  (CEvent.wFPS n :: r.1, r.2)

/-- Embedding of `RestartForResize`: kill only. -/
def RestartForResize (s : FfmpegState) : List CEvent × FfmpegState :=
  killProcess s

/-- Fields of a `config` control message as the wsHandler reads them:
`none` models a field that is absent (or fails the JSON type assertion). -/
structure ConfigMsg where
  bandwidth : Option Int
  quality : Option Int
  framerate : Option Int
  vbr : Option Bool
  cpu_effort : Option Int
  cpu_threads : Option Int
  enable_desktop_mouse : Option Bool
deriving DecidableEq, Repr

/-- Sequencing of two traced state transformers. -/
def andThen (r : List CEvent × FfmpegState)
    (f : FfmpegState → List CEvent × FfmpegState) : List CEvent × FfmpegState :=
  (r.1 ++ (f r.2).1, (f r.2).2)

/-- Stage of the config case for `vbr` (http.go lines 210-213). -/
def cfgStageVBR (m : ConfigMsg) (s : FfmpegState) : List CEvent × FfmpegState :=
  match m.vbr with
  | some b => SetVBR b s
  | none => ([], s)

/-- Stage for `cpu_effort` (http.go lines 214-218). -/
def cfgStageCpuEffort (m : ConfigMsg) (s : FfmpegState) : List CEvent × FfmpegState :=
  match m.cpu_effort with
  | some n => SetCpuEffort n s
  | none => ([], s)

/-- Stage for `cpu_threads` (http.go lines 219-223). -/
def cfgStageCpuThreads (m : ConfigMsg) (s : FfmpegState) : List CEvent × FfmpegState :=
  match m.cpu_threads with
  | some n => SetCpuThreads n s
  | none => ([], s)

/-- Stage for `enable_desktop_mouse` (http.go lines 224-227). -/
def cfgStageMouse (m : ConfigMsg) (s : FfmpegState) : List CEvent × FfmpegState :=
  match m.enable_desktop_mouse with
  | some b => SetDrawMouse b s
  | none => ([], s)

/-- Inline FPS write performed (without a kill) inside the bandwidth and
quality branches when `framerate` is also present (http.go lines
234-241 and 247-254). -/
def cfgFpsInline (fr : Option Int) (s : FfmpegState) : List CEvent × FfmpegState :=
  match fr with
  | some f => ([CEvent.wFPS f], { s with FPS := f })
  | none => ([], s)

/-- Rate-control stage (http.go lines 228-263): `bandwidth` takes the
branch if present (with an inline FPS write first when `framerate` is
present), otherwise `quality` does, otherwise a bare `framerate` goes
through `SetFramerate`. -/
def cfgStageRate (m : ConfigMsg) (s : FfmpegState) : List CEvent × FfmpegState :=
  match m.bandwidth with
  | some bw => andThen (cfgFpsInline m.framerate s) (SetBandwidth bw)
  | none =>
    match m.quality with
    | some q => andThen (cfgFpsInline m.framerate s) (SetQuality q)
    | none =>
      match m.framerate with
      | some f => SetFramerate f s
      | none => ([], s)

/-- Embedding of the `config` case of `wsHandler` (http.go lines
208-263): the recognized fields are applied in source order. -/
def handleConfig (m : ConfigMsg) (s : FfmpegState) : List CEvent × FfmpegState :=
  andThen (andThen (andThen (andThen (cfgStageVBR m s)
    (cfgStageCpuEffort m)) (cfgStageCpuThreads m)) (cfgStageMouse m)) (cfgStageRate m)

/-- Restart potential of a state: deaths already caused plus the one
death the alive child can still suffer.  Setters never change it. -/
def pot (s : FfmpegState) : Nat :=
  s.deaths + (if s.procAlive then 1 else 0)

theorem killProcess_snd (s : FfmpegState) :
    (killProcess s).2 = { s with
      procAlive := s.procAlive && !s.cmdSet,
      deaths := s.deaths + (if s.procAlive && s.cmdSet then 1 else 0) } := by
  obtain ⟨tm, tb, tq, tv, te, tt, td, fps, cs, pa, d⟩ := s
  cases cs <;> cases pa <;> simp [killProcess]

theorem killProcess_pot (s : FfmpegState) : pot (killProcess s).2 = pot s := by
  rw [killProcess_snd]
  cases hc : s.cmdSet <;> cases ha : s.procAlive <;> simp [pot, hc, ha]

theorem killProcess_deaths_le (s : FfmpegState) : s.deaths ≤ (killProcess s).2.deaths := by
  rw [killProcess_snd]
  simp only []
  omega

theorem killProcess_dead (s : FfmpegState) (h : s.procAlive = false) :
    (killProcess s).2.procAlive = false := by
  rw [killProcess_snd]
  simp [h]

theorem killProcess_kills (s : FfmpegState) (h : s.cmdSet = true) :
    (killProcess s).2.procAlive = false := by
  rw [killProcess_snd]
  simp [h]

/-- Behaviour of the `vbr` stage needed by the config-handler claims. -/
theorem cfgStageVBR_spec (m : ConfigMsg) (s : FfmpegState) :
    ((cfgStageVBR m s).2.targetVBR = m.vbr.getD s.targetVBR) ∧
    ((cfgStageVBR m s).2.targetCpuEffort = s.targetCpuEffort) ∧
    ((cfgStageVBR m s).2.targetCpuThreads = s.targetCpuThreads) ∧
    ((cfgStageVBR m s).2.targetDrawMouse = s.targetDrawMouse) ∧
    ((cfgStageVBR m s).2.targetMode = s.targetMode) ∧
    ((cfgStageVBR m s).2.targetBandwidthMbps = s.targetBandwidthMbps) ∧
    ((cfgStageVBR m s).2.targetQuality = s.targetQuality) ∧
    ((cfgStageVBR m s).2.FPS = s.FPS) ∧
    ((cfgStageVBR m s).2.cmdSet = s.cmdSet) ∧
    (pot (cfgStageVBR m s).2 = pot s) ∧
    (s.deaths ≤ (cfgStageVBR m s).2.deaths) ∧
    (s.procAlive = false → (cfgStageVBR m s).2.procAlive = false) ∧
    (m.vbr.isSome → s.cmdSet = true → (cfgStageVBR m s).2.procAlive = false) ∧
    (m.vbr = none → cfgStageVBR m s = ([], s)) := by
  cases hv : m.vbr with
  | none => simp [cfgStageVBR, hv]
  | some b =>
    have h1 := killProcess_pot { s with targetVBR := b }
    have h2 := killProcess_deaths_le { s with targetVBR := b }
    have h3 := killProcess_dead { s with targetVBR := b }
    have h4 := killProcess_kills { s with targetVBR := b }
    refine ⟨?_, ?_, ?_, ?_, ?_, ?_, ?_, ?_, ?_, ?_, ?_, ?_, ?_, ?_⟩ <;>
      simp [cfgStageVBR, hv, SetVBR, killProcess_snd, pot] <;>
      cases hc : s.cmdSet <;> cases ha : s.procAlive <;> simp_all [pot] <;> omega

/-- Behaviour of the `cpu_effort` stage. -/
theorem cfgStageCpuEffort_spec (m : ConfigMsg) (s : FfmpegState) :
    ((cfgStageCpuEffort m s).2.targetVBR = s.targetVBR) ∧
    ((cfgStageCpuEffort m s).2.targetCpuEffort = m.cpu_effort.getD s.targetCpuEffort) ∧
    ((cfgStageCpuEffort m s).2.targetCpuThreads = s.targetCpuThreads) ∧
    ((cfgStageCpuEffort m s).2.targetDrawMouse = s.targetDrawMouse) ∧
    ((cfgStageCpuEffort m s).2.targetMode = s.targetMode) ∧
    ((cfgStageCpuEffort m s).2.targetBandwidthMbps = s.targetBandwidthMbps) ∧
    ((cfgStageCpuEffort m s).2.targetQuality = s.targetQuality) ∧
    ((cfgStageCpuEffort m s).2.FPS = s.FPS) ∧
    ((cfgStageCpuEffort m s).2.cmdSet = s.cmdSet) ∧
    (pot (cfgStageCpuEffort m s).2 = pot s) ∧
    (s.deaths ≤ (cfgStageCpuEffort m s).2.deaths) ∧
    (s.procAlive = false → (cfgStageCpuEffort m s).2.procAlive = false) ∧
    (m.cpu_effort.isSome → s.cmdSet = true → (cfgStageCpuEffort m s).2.procAlive = false) ∧
    (m.cpu_effort = none → cfgStageCpuEffort m s = ([], s)) := by
  cases hv : m.cpu_effort with
  | none => simp [cfgStageCpuEffort, hv]
  | some b =>
    refine ⟨?_, ?_, ?_, ?_, ?_, ?_, ?_, ?_, ?_, ?_, ?_, ?_, ?_, ?_⟩ <;>
      simp [cfgStageCpuEffort, hv, SetCpuEffort, killProcess_snd, pot] <;>
      cases hc : s.cmdSet <;> cases ha : s.procAlive <;> simp_all [pot] <;> omega

/-- Behaviour of the `cpu_threads` stage. -/
theorem cfgStageCpuThreads_spec (m : ConfigMsg) (s : FfmpegState) :
    ((cfgStageCpuThreads m s).2.targetVBR = s.targetVBR) ∧
    ((cfgStageCpuThreads m s).2.targetCpuEffort = s.targetCpuEffort) ∧
    ((cfgStageCpuThreads m s).2.targetCpuThreads = m.cpu_threads.getD s.targetCpuThreads) ∧
    ((cfgStageCpuThreads m s).2.targetDrawMouse = s.targetDrawMouse) ∧
    ((cfgStageCpuThreads m s).2.targetMode = s.targetMode) ∧
    ((cfgStageCpuThreads m s).2.targetBandwidthMbps = s.targetBandwidthMbps) ∧
    ((cfgStageCpuThreads m s).2.targetQuality = s.targetQuality) ∧
    ((cfgStageCpuThreads m s).2.FPS = s.FPS) ∧
    ((cfgStageCpuThreads m s).2.cmdSet = s.cmdSet) ∧
    (pot (cfgStageCpuThreads m s).2 = pot s) ∧
    (s.deaths ≤ (cfgStageCpuThreads m s).2.deaths) ∧
    (s.procAlive = false → (cfgStageCpuThreads m s).2.procAlive = false) ∧
    (m.cpu_threads.isSome → s.cmdSet = true → (cfgStageCpuThreads m s).2.procAlive = false) ∧
    (m.cpu_threads = none → cfgStageCpuThreads m s = ([], s)) := by
  cases hv : m.cpu_threads with
  | none => simp [cfgStageCpuThreads, hv]
  | some b =>
    refine ⟨?_, ?_, ?_, ?_, ?_, ?_, ?_, ?_, ?_, ?_, ?_, ?_, ?_, ?_⟩ <;>
      simp [cfgStageCpuThreads, hv, SetCpuThreads, killProcess_snd, pot] <;>
      cases hc : s.cmdSet <;> cases ha : s.procAlive <;> simp_all [pot] <;> omega

/-- Behaviour of the `enable_desktop_mouse` stage. -/
theorem cfgStageMouse_spec (m : ConfigMsg) (s : FfmpegState) :
    ((cfgStageMouse m s).2.targetVBR = s.targetVBR) ∧
    ((cfgStageMouse m s).2.targetCpuEffort = s.targetCpuEffort) ∧
    ((cfgStageMouse m s).2.targetCpuThreads = s.targetCpuThreads) ∧
    ((cfgStageMouse m s).2.targetDrawMouse = m.enable_desktop_mouse.getD s.targetDrawMouse) ∧
    ((cfgStageMouse m s).2.targetMode = s.targetMode) ∧
    ((cfgStageMouse m s).2.targetBandwidthMbps = s.targetBandwidthMbps) ∧
    ((cfgStageMouse m s).2.targetQuality = s.targetQuality) ∧
    ((cfgStageMouse m s).2.FPS = s.FPS) ∧
    ((cfgStageMouse m s).2.cmdSet = s.cmdSet) ∧
    (pot (cfgStageMouse m s).2 = pot s) ∧
    (s.deaths ≤ (cfgStageMouse m s).2.deaths) ∧
    (s.procAlive = false → (cfgStageMouse m s).2.procAlive = false) ∧
    (m.enable_desktop_mouse.isSome → s.cmdSet = true → (cfgStageMouse m s).2.procAlive = false) ∧
    (m.enable_desktop_mouse = none → cfgStageMouse m s = ([], s)) := by
  cases hv : m.enable_desktop_mouse with
  | none => simp [cfgStageMouse, hv]
  | some b =>
    refine ⟨?_, ?_, ?_, ?_, ?_, ?_, ?_, ?_, ?_, ?_, ?_, ?_, ?_, ?_⟩ <;>
      simp [cfgStageMouse, hv, SetDrawMouse, killProcess_snd, pot] <;>
      cases hc : s.cmdSet <;> cases ha : s.procAlive <;> simp_all [pot] <;> omega

theorem deaths_le_pot (s : FfmpegState) : s.deaths ≤ pot s := by
  unfold pot
  split <;> omega

theorem pot_of_dead (s : FfmpegState) (h : s.procAlive = false) : pot s = s.deaths := by
  simp [pot, h]

theorem pot_of_alive (s : FfmpegState) (h : s.procAlive = true) : pot s = s.deaths + 1 := by
  simp [pot, h]

/-- Field effects, potential preservation and death monotonicity of the
rate-control stage. -/
theorem cfgStageRate_base (m : ConfigMsg) (s : FfmpegState) :
    ((cfgStageRate m s).2.targetVBR = s.targetVBR) ∧
    ((cfgStageRate m s).2.targetCpuEffort = s.targetCpuEffort) ∧
    ((cfgStageRate m s).2.targetCpuThreads = s.targetCpuThreads) ∧
    ((cfgStageRate m s).2.targetDrawMouse = s.targetDrawMouse) ∧
    ((cfgStageRate m s).2.FPS = m.framerate.getD s.FPS) ∧
    ((cfgStageRate m s).2.cmdSet = s.cmdSet) ∧
    (pot (cfgStageRate m s).2 = pot s) ∧
    (s.deaths ≤ (cfgStageRate m s).2.deaths) ∧
    (s.procAlive = false → (cfgStageRate m s).2.procAlive = false) := by
  obtain ⟨tm, tb, tq, tv, te, tt, td, fps, cs, pa, d⟩ := s
  rcases hb : m.bandwidth with _ | bw
  · rcases hq : m.quality with _ | q
    · rcases hf : m.framerate with _ | f
      · simp [cfgStageRate, hb, hq, hf]
      · cases cs <;> cases pa <;>
          simp [cfgStageRate, hb, hq, hf, SetFramerate, killProcess, pot]
    · rcases hf : m.framerate with _ | f <;>
        cases cs <;> cases pa <;>
        simp [cfgStageRate, hb, hq, hf, andThen, cfgFpsInline, SetQuality, killProcess, pot]
  · rcases hf : m.framerate with _ | f <;>
      cases cs <;> cases pa <;>
      simp [cfgStageRate, hb, hf, andThen, cfgFpsInline, SetBandwidth, killProcess, pot]

/-- Whenever the message carries a rate-control or framerate field, the
rate stage kills a set encoder handle. -/
theorem cfgStageRate_kills (m : ConfigMsg) (s : FfmpegState)
    (hrec : m.bandwidth.isSome || m.quality.isSome || m.framerate.isSome)
    (hcs : s.cmdSet = true) : (cfgStageRate m s).2.procAlive = false := by
  obtain ⟨tm, tb, tq, tv, te, tt, td, fps, cs, pa, d⟩ := s
  cases hcs
  rcases hb : m.bandwidth with _ | bw
  · rcases hq : m.quality with _ | q
    · rcases hf : m.framerate with _ | f
      · simp [hb, hq, hf] at hrec
      · cases pa <;>
          simp [cfgStageRate, hb, hq, hf, SetFramerate, killProcess]
    · rcases hf : m.framerate with _ | f <;>
        cases pa <;>
        simp [cfgStageRate, hb, hq, hf, andThen, cfgFpsInline, SetQuality, killProcess]
  · rcases hf : m.framerate with _ | f <;>
      cases pa <;>
      simp [cfgStageRate, hb, hf, andThen, cfgFpsInline, SetBandwidth, killProcess]

/-- Outcome of the rate stage on the mode, bandwidth and quality fields:
`bandwidth` wins the branch and leaves `targetQuality` untouched. -/
theorem cfgStageRate_mode (m : ConfigMsg) (s : FfmpegState) :
    (∀ bw, m.bandwidth = some bw →
      (cfgStageRate m s).2.targetMode = "bandwidth" ∧
      (cfgStageRate m s).2.targetBandwidthMbps = bw ∧
      (cfgStageRate m s).2.targetQuality = s.targetQuality) ∧
    (∀ q, m.bandwidth = none → m.quality = some q →
      (cfgStageRate m s).2.targetMode = "quality" ∧
      (cfgStageRate m s).2.targetQuality = q ∧
      (cfgStageRate m s).2.targetBandwidthMbps = s.targetBandwidthMbps) ∧
    (m.bandwidth = none → m.quality = none →
      (cfgStageRate m s).2.targetMode = s.targetMode ∧
      (cfgStageRate m s).2.targetBandwidthMbps = s.targetBandwidthMbps ∧
      (cfgStageRate m s).2.targetQuality = s.targetQuality) := by
  obtain ⟨tm, tb, tq, tv, te, tt, td, fps, cs, pa, d⟩ := s
  rcases hb : m.bandwidth with _ | bw
  · rcases hq : m.quality with _ | q
    · rcases hf : m.framerate with _ | f <;>
        cases cs <;> cases pa <;>
        simp [cfgStageRate, hb, hq, hf, SetFramerate, killProcess]
    · rcases hf : m.framerate with _ | f <;>
        cases cs <;> cases pa <;>
        simp [cfgStageRate, hb, hq, hf, andThen, cfgFpsInline, SetQuality, killProcess]
  · rcases hf : m.framerate with _ | f <;>
      cases cs <;> cases pa <;>
      simp [cfgStageRate, hb, hf, andThen, cfgFpsInline, SetBandwidth, killProcess]

/-- Trace shape of the rate stage when both a rate-control field and a
framerate are present: the FPS write comes first, immediately followed by
the mode and rate writes. -/
theorem cfgStageRate_trace (m : ConfigMsg) (s : FfmpegState) :
    (∀ bw f, m.bandwidth = some bw → m.framerate = some f →
      ∃ r, (cfgStageRate m s).1 =
        CEvent.wFPS f :: CEvent.wMode "bandwidth" :: CEvent.wBandwidth bw :: r) ∧
    (∀ q f, m.bandwidth = none → m.quality = some q → m.framerate = some f →
      ∃ r, (cfgStageRate m s).1 =
        CEvent.wFPS f :: CEvent.wMode "quality" :: CEvent.wQuality q :: r) := by
  constructor
  · intro bw f hb hf
    simp only [cfgStageRate, hb, hf, andThen, cfgFpsInline, SetBandwidth]
    exact ⟨_, rfl⟩
  · intro q f hb hq hf
    simp only [cfgStageRate, hb, hq, hf, andThen, cfgFpsInline, SetQuality]
    exact ⟨_, rfl⟩

theorem pot_le (s : FfmpegState) : pot s ≤ s.deaths + 1 := by
  unfold pot
  split <;> omega

/-- Concrete `config` message carrying both `bandwidth` and `quality`. -/
def cfgMsgBwQ : ConfigMsg :=
  { bandwidth := some 1, quality := some 50, framerate := none, vbr := none,
    cpu_effort := none, cpu_threads := none, enable_desktop_mouse := none }

/-- C1 counterexample: a `config` message with `bandwidth:1, quality:50`
does not apply the recognized `quality` field — the handler's else-if
keeps `targetQuality` at its previous value 70. -/
theorem config_quality_shadowed_cex :
    cfgMsgBwQ.quality = some 50 ∧
    initFfmpeg.targetQuality = 70 ∧
    (handleConfig cfgMsgBwQ initFfmpeg).2.targetQuality = 70 := by
  decide

/-- C1 (amended): processing one `config` message applies every
recognized field — except that `quality` is ignored when `bandwidth` is
present in the same message — and causes at most one encoder restart
(child death); when a rate-control field and `framerate` are both
present, the FPS write precedes the mode and rate writes in the trace,
and exactly one restart happens whenever an encoder child is running. -/
theorem config_batch_semantics (m : ConfigMsg) (s : FfmpegState) :
    ((handleConfig m s).2.targetVBR = m.vbr.getD s.targetVBR) ∧
    ((handleConfig m s).2.targetCpuEffort = m.cpu_effort.getD s.targetCpuEffort) ∧
    ((handleConfig m s).2.targetCpuThreads = m.cpu_threads.getD s.targetCpuThreads) ∧
    ((handleConfig m s).2.targetDrawMouse = m.enable_desktop_mouse.getD s.targetDrawMouse) ∧
    ((handleConfig m s).2.FPS = m.framerate.getD s.FPS) ∧
    (∀ bw, m.bandwidth = some bw →
      (handleConfig m s).2.targetMode = "bandwidth" ∧
      (handleConfig m s).2.targetBandwidthMbps = bw ∧
      (handleConfig m s).2.targetQuality = s.targetQuality) ∧
    (∀ q, m.bandwidth = none → m.quality = some q →
      (handleConfig m s).2.targetMode = "quality" ∧
      (handleConfig m s).2.targetQuality = q ∧
      (handleConfig m s).2.targetBandwidthMbps = s.targetBandwidthMbps) ∧
    ((handleConfig m s).2.deaths ≤ s.deaths + 1) ∧
    (∀ bw f, m.bandwidth = some bw → m.framerate = some f →
      (∃ pre post, (handleConfig m s).1 =
        pre ++ CEvent.wFPS f :: CEvent.wMode "bandwidth" :: CEvent.wBandwidth bw :: post) ∧
      (s.cmdSet = true → s.procAlive = true →
        (handleConfig m s).2.deaths = s.deaths + 1)) ∧
    (∀ q f, m.bandwidth = none → m.quality = some q → m.framerate = some f →
      (∃ pre post, (handleConfig m s).1 =
        pre ++ CEvent.wFPS f :: CEvent.wMode "quality" :: CEvent.wQuality q :: post) ∧
      (s.cmdSet = true → s.procAlive = true →
        (handleConfig m s).2.deaths = s.deaths + 1)) := by
  obtain ⟨a1, a2, a3, a4, a5, a6, a7, a8, a9, a10, a11, a12, a13, a14⟩ :=
    cfgStageVBR_spec m s
  obtain ⟨b1, b2, b3, b4, b5, b6, b7, b8, b9, b10, b11, b12, b13, b14⟩ :=
    cfgStageCpuEffort_spec m (cfgStageVBR m s).2
  obtain ⟨c1, c2, c3, c4, c5, c6, c7, c8, c9, c10, c11, c12, c13, c14⟩ :=
    cfgStageCpuThreads_spec m (cfgStageCpuEffort m (cfgStageVBR m s).2).2
  obtain ⟨d1, d2, d3, d4, d5, d6, d7, d8, d9, d10, d11, d12, d13, d14⟩ :=
    cfgStageMouse_spec m
      (cfgStageCpuThreads m (cfgStageCpuEffort m (cfgStageVBR m s).2).2).2
  obtain ⟨r1, r2, r3, r4, r5, r6, r7, r8, r9⟩ :=
    cfgStageRate_base m
      (cfgStageMouse m
        (cfgStageCpuThreads m (cfgStageCpuEffort m (cfgStageVBR m s).2).2).2).2
  obtain ⟨rm1, rm2, rm3⟩ :=
    cfgStageRate_mode m
      (cfgStageMouse m
        (cfgStageCpuThreads m (cfgStageCpuEffort m (cfgStageVBR m s).2).2).2).2
  obtain ⟨rt1, rt2⟩ :=
    cfgStageRate_trace m
      (cfgStageMouse m
        (cfgStageCpuThreads m (cfgStageCpuEffort m (cfgStageVBR m s).2).2).2).2
  have hsnd : (handleConfig m s).2 =
      (cfgStageRate m
        (cfgStageMouse m
          (cfgStageCpuThreads m (cfgStageCpuEffort m (cfgStageVBR m s).2).2).2).2).2 := rfl
  have hfst : (handleConfig m s).1 =
      ((((cfgStageVBR m s).1 ++
          (cfgStageCpuEffort m (cfgStageVBR m s).2).1) ++
          (cfgStageCpuThreads m (cfgStageCpuEffort m (cfgStageVBR m s).2).2).1) ++
          (cfgStageMouse m
            (cfgStageCpuThreads m (cfgStageCpuEffort m (cfgStageVBR m s).2).2).2).1) ++
          (cfgStageRate m
            (cfgStageMouse m
              (cfgStageCpuThreads m (cfgStageCpuEffort m (cfgStageVBR m s).2).2).2).2).1 := rfl
  have hpot : pot (handleConfig m s).2 = pot s := by
    rw [hsnd, r7, d10, c10, b10, a10]
  have hcmd : (handleConfig m s).2.cmdSet = s.cmdSet := by
    rw [hsnd, r6, d9, c9, b9, a9]
  have hexact : ∀ hrec : m.bandwidth.isSome || m.quality.isSome || m.framerate.isSome,
      s.cmdSet = true → s.procAlive = true →
      (handleConfig m s).2.deaths = s.deaths + 1 := by
    intro hrec hcs hpa
    have hcs4 : (cfgStageMouse m
        (cfgStageCpuThreads m (cfgStageCpuEffort m (cfgStageVBR m s).2).2).2).2.cmdSet = true := by
      rw [d9, c9, b9, a9, hcs]
    have hdead := cfgStageRate_kills m _ hrec hcs4
    have hdd : (handleConfig m s).2.procAlive = false := by rw [hsnd]; exact hdead
    have := pot_of_dead _ hdd
    rw [this.symm, hpot, pot_of_alive s hpa]
  refine ⟨?_, ?_, ?_, ?_, ?_, ?_, ?_, ?_, ?_, ?_⟩
  · rw [hsnd, r1, d1, c1, b1, a1]
  · rw [hsnd, r2, d2, c2, b2, a2]
  · rw [hsnd, r3, d3, c3, b3, a3]
  · rw [hsnd, r4, d4, c4, b4, a4]
  · rw [hsnd, r5, d8, c8, b8, a8]
  · intro bw hb
    obtain ⟨h1, h2, h3⟩ := rm1 bw hb
    refine ⟨by rw [hsnd, h1], by rw [hsnd, h2], by rw [hsnd, h3, d7, c7, b7, a7]⟩
  · intro q hb hq
    obtain ⟨h1, h2, h3⟩ := rm2 q hb hq
    refine ⟨by rw [hsnd, h1], by rw [hsnd, h2], by rw [hsnd, h3, d6, c6, b6, a6]⟩
  · calc (handleConfig m s).2.deaths ≤ pot (handleConfig m s).2 := deaths_le_pot _
    _ = pot s := hpot
    _ ≤ s.deaths + 1 := pot_le s
  · intro bw f hb hf
    obtain ⟨r, hr⟩ := rt1 bw f hb hf
    refine ⟨⟨_, r, by rw [hfst, hr]⟩, ?_⟩
    exact hexact (by simp [hb])
  · intro q f hb hq hf
    obtain ⟨r, hr⟩ := rt2 q f hb hq hf
    refine ⟨⟨_, r, by rw [hfst, hr]⟩, ?_⟩
    exact hexact (by simp [hq])

/-- Concrete `config` message carrying bandwidth and framerate. -/
def cfgMsgBwFr : ConfigMsg :=
  { bandwidth := some 3, quality := none, framerate := some 15, vbr := none,
    cpu_effort := none, cpu_threads := none, enable_desktop_mouse := none }

/-- Witness for `config_batch_semantics` on the message
`config {bandwidth:3, framerate:15}` at the initial state. -/
theorem config_batch_semantics_witness :
    (handleConfig cfgMsgBwFr initFfmpeg).2.targetBandwidthMbps = 3 ∧
    (handleConfig cfgMsgBwFr initFfmpeg).2.FPS = 15 ∧
    (handleConfig cfgMsgBwFr initFfmpeg).2.deaths = initFfmpeg.deaths + 1 := by
  obtain ⟨h1, h2, h3, h4, h5, h6, h7, h8, h9, h10⟩ :=
    config_batch_semantics cfgMsgBwFr initFfmpeg
  exact ⟨(h6 3 rfl).2.1, h5.trans rfl, (h9 3 15 rfl rfl).2 rfl rfl⟩

/-- Concrete `config` message whose only field equals the current config
value (`vbr:true` while `targetVBR` is already `true`). -/
def cfgMsgSame : ConfigMsg :=
  { bandwidth := none, quality := none, framerate := none, vbr := some true,
    cpu_effort := none, cpu_threads := none, enable_desktop_mouse := none }

/-- C2 counterexample: at the initial state (`targetVBR = true`, encoder
child running), the message `config {vbr:true}` — all of whose
recognized fields equal the current configuration — still kills the
running encoder child, so one restart is observable. -/
theorem config_identical_restarts_cex :
    cfgMsgSame.vbr = some initFfmpeg.targetVBR ∧
    initFfmpeg.procAlive = true ∧ initFfmpeg.deaths = 0 ∧
    (handleConfig cfgMsgSame initFfmpeg).2.procAlive = false ∧
    (handleConfig cfgMsgSame initFfmpeg).2.deaths = 1 := by
  decide

/-- True when the message carries at least one recognized field. -/
def hasRecognizedField (m : ConfigMsg) : Bool :=
  m.vbr.isSome || m.cpu_effort.isSome || m.cpu_threads.isSome ||
  m.enable_desktop_mouse.isSome || m.bandwidth.isSome || m.quality.isSome ||
  m.framerate.isSome

/-- C2 (amended): the setters kill unconditionally, so any `config`
message with at least one recognized field kills the running encoder
child and exactly one restart is observable — even when every field
equals the current configuration; no restart happens only when the
message has no recognized field (the handler is then a no-op) or when no
encoder child is alive. -/
theorem config_restart_unconditional (m : ConfigMsg) (s : FfmpegState) :
    (hasRecognizedField m = true → s.cmdSet = true → s.procAlive = true →
      (handleConfig m s).2.deaths = s.deaths + 1) ∧
    (hasRecognizedField m = false → handleConfig m s = ([], s)) ∧
    (s.procAlive = false → (handleConfig m s).2.deaths = s.deaths) := by
  obtain ⟨a1, a2, a3, a4, a5, a6, a7, a8, a9, a10, a11, a12, a13, a14⟩ :=
    cfgStageVBR_spec m s
  obtain ⟨b1, b2, b3, b4, b5, b6, b7, b8, b9, b10, b11, b12, b13, b14⟩ :=
    cfgStageCpuEffort_spec m (cfgStageVBR m s).2
  obtain ⟨c1, c2, c3, c4, c5, c6, c7, c8, c9, c10, c11, c12, c13, c14⟩ :=
    cfgStageCpuThreads_spec m (cfgStageCpuEffort m (cfgStageVBR m s).2).2
  obtain ⟨d1, d2, d3, d4, d5, d6, d7, d8, d9, d10, d11, d12, d13, d14⟩ :=
    cfgStageMouse_spec m
      (cfgStageCpuThreads m (cfgStageCpuEffort m (cfgStageVBR m s).2).2).2
  obtain ⟨r1, r2, r3, r4, r5, r6, r7, r8, r9⟩ :=
    cfgStageRate_base m
      (cfgStageMouse m
        (cfgStageCpuThreads m (cfgStageCpuEffort m (cfgStageVBR m s).2).2).2).2
  have hsnd : (handleConfig m s).2 =
      (cfgStageRate m
        (cfgStageMouse m
          (cfgStageCpuThreads m (cfgStageCpuEffort m (cfgStageVBR m s).2).2).2).2).2 := rfl
  have hpot : pot (handleConfig m s).2 = pot s := by
    rw [hsnd, r7, d10, c10, b10, a10]
  refine ⟨?_, ?_, ?_⟩
  · intro hrec hcs hpa
    have hdd : (handleConfig m s).2.procAlive = false := by
      rcases hv : m.vbr with _ | b
      · rcases he : m.cpu_effort with _ | n
        · rcases ht : m.cpu_threads with _ | n
          · rcases hm : m.enable_desktop_mouse with _ | b
            · -- only rate-control or framerate fields can be present
              have hrate : (m.bandwidth.isSome || m.quality.isSome ||
                  m.framerate.isSome) = true := by
                rcases hb2 : m.bandwidth with _ | bw
                · rcases hq2 : m.quality with _ | q
                  · rcases hf2 : m.framerate with _ | f
                    · rw [hasRecognizedField, hv, he, ht, hm, hb2, hq2, hf2] at hrec
                      simp at hrec
                    · simp [hf2]
                  · simp [hq2]
                · simp [hb2]
              have hcs4 : (cfgStageMouse m
                  (cfgStageCpuThreads m
                    (cfgStageCpuEffort m (cfgStageVBR m s).2).2).2).2.cmdSet = true := by
                rw [d9, c9, b9, a9, hcs]
              rw [hsnd]
              exact cfgStageRate_kills m _ hrate hcs4
            · have h1 : (cfgStageMouse m
                  (cfgStageCpuThreads m
                    (cfgStageCpuEffort m (cfgStageVBR m s).2).2).2).2.procAlive = false := by
                refine d13 (by simp [hm]) ?_
                rw [c9, b9, a9, hcs]
              rw [hsnd]
              exact r9 h1
          · have h1 : (cfgStageCpuThreads m
                (cfgStageCpuEffort m (cfgStageVBR m s).2).2).2.procAlive = false := by
              refine c13 (by simp [ht]) ?_
              rw [b9, a9, hcs]
            rw [hsnd]
            exact r9 (d12 h1)
        · have h1 : (cfgStageCpuEffort m (cfgStageVBR m s).2).2.procAlive = false := by
            refine b13 (by simp [he]) ?_
            rw [a9, hcs]
          rw [hsnd]
          exact r9 (d12 (c12 h1))
      · have h1 : (cfgStageVBR m s).2.procAlive = false := a13 (by simp [hv]) hcs
        rw [hsnd]
        exact r9 (d12 (c12 (b12 h1)))
    have := pot_of_dead _ hdd
    rw [this.symm, hpot, pot_of_alive s hpa]
  · intro hnone
    have hv : m.vbr = none := by
      rcases h : m.vbr with _ | b
      · rfl
      · simp [hasRecognizedField, h] at hnone
    have he : m.cpu_effort = none := by
      rcases h : m.cpu_effort with _ | n
      · rfl
      · simp [hasRecognizedField, h] at hnone
    have ht : m.cpu_threads = none := by
      rcases h : m.cpu_threads with _ | n
      · rfl
      · simp [hasRecognizedField, h] at hnone
    have hm : m.enable_desktop_mouse = none := by
      rcases h : m.enable_desktop_mouse with _ | b
      · rfl
      · simp [hasRecognizedField, h] at hnone
    have hb : m.bandwidth = none := by
      rcases h : m.bandwidth with _ | n
      · rfl
      · simp [hasRecognizedField, h] at hnone
    have hq : m.quality = none := by
      rcases h : m.quality with _ | n
      · rfl
      · simp [hasRecognizedField, h] at hnone
    have hf : m.framerate = none := by
      rcases h : m.framerate with _ | n
      · rfl
      · simp [hasRecognizedField, h] at hnone
    simp [handleConfig, andThen, cfgStageVBR, cfgStageCpuEffort, cfgStageCpuThreads,
      cfgStageMouse, cfgStageRate, hv, he, ht, hm, hb, hq, hf]
  · intro hpa
    have hup : s.deaths ≤ (handleConfig m s).2.deaths := by
      rw [hsnd]
      calc s.deaths ≤ (cfgStageVBR m s).2.deaths := a11
      _ ≤ (cfgStageCpuEffort m (cfgStageVBR m s).2).2.deaths := b11
      _ ≤ (cfgStageCpuThreads m (cfgStageCpuEffort m (cfgStageVBR m s).2).2).2.deaths := c11
      _ ≤ (cfgStageMouse m
            (cfgStageCpuThreads m (cfgStageCpuEffort m (cfgStageVBR m s).2).2).2).2.deaths :=
        d11
      _ ≤ _ := r8
    have hdown : (handleConfig m s).2.deaths ≤ s.deaths := by
      calc (handleConfig m s).2.deaths ≤ pot (handleConfig m s).2 := deaths_le_pot _
      _ = pot s := hpot
      _ = s.deaths := pot_of_dead s hpa
    omega

/-- Witness for `config_restart_unconditional` at the identical-values
message and the initial state. -/
theorem config_restart_unconditional_witness :
    (handleConfig cfgMsgSame initFfmpeg).2.deaths = initFfmpeg.deaths + 1 := by
  exact (config_restart_unconditional cfgMsgSame initFfmpeg).1 rfl rfl rfl

/-! ## WebRTC pacing writer (cmd/server/webrtc.go, `initWebRTC` goroutine)

Frames carry their payload, the stream id (epoch) of the encoder run that
produced them, and the capture wall-clock time in nanoseconds.  The
writer holds one buffered frame; when the next frame arrives it writes
the buffered frame with duration `next.captureTime - buffered.captureTime`
(1 µs when that difference is not positive), or — if the arriving frame
has a different stream id — with duration `time.Second / FPS`. -/

/-- Frame queued to the pacing writer. -/
structure WFrame where
  data : List Nat
  streamID : Nat
  captureTime : Int
deriving DecidableEq, Repr

/-- Sample written to the shared video track (duration in nanoseconds). -/
structure MSample where
  data : List Nat
  duration : Int
deriving DecidableEq, Repr

/-- State of the pacing goroutine: the buffered frame and the
`currentStreamID` global. -/
structure PacerState where
  buffered : Option WFrame
  currentStreamID : Nat
deriving DecidableEq, Repr

/-- One loop iteration of the pacing goroutine on an arriving frame.
`time.Second / time.Duration(FPS)` is Go truncating division of
nanosecond counts, mirrored by `Int.tdiv`. -/
def pacerStep (fps : Int) (st : PacerState) (f : WFrame) : PacerState × List MSample :=
  match st.buffered with
  | none => ({ buffered := some f, currentStreamID := f.streamID }, [])
  | some h =>
    if f.streamID ≠ st.currentStreamID then
      ({ buffered := some f, currentStreamID := f.streamID },
       [{ data := h.data, duration := Int.tdiv 1000000000 fps }])
    else
      ({ buffered := some f, currentStreamID := st.currentStreamID },
       [{ data := h.data,
          duration := if f.captureTime - h.captureTime ≤ 0 then 1000
            else f.captureTime - h.captureTime }])

/-- The pacing goroutine consuming a whole frame sequence. -/
def pacerRun (fps : Int) (st : PacerState) : List WFrame → List MSample
  | [] => []
  | f :: rest => (pacerStep fps st f).2 ++ pacerRun fps (pacerStep fps st f).1 rest

/-- Modelled from the spec wording of C3: a one-slot look-ahead writer.
The held frame is written when its successor arrives, with duration
`next.captureTime − held.captureTime`, substituting 1 µs whenever that
difference is not positive; a successor from a different epoch instead
flushes the held frame with duration `1/fps` and replaces it. -/
def pacerSpec (fps : Int) : Option WFrame → List WFrame → List MSample
  | _, [] => []
  | none, a :: rest => pacerSpec fps (some a) rest
  | some h, a :: rest =>
    if a.streamID = h.streamID then
      { data := h.data,
        duration := if a.captureTime - h.captureTime ≤ 0 then 1000
          else a.captureTime - h.captureTime } :: pacerSpec fps (some a) rest
    else
      { data := h.data, duration := Int.tdiv 1000000000 fps } :: pacerSpec fps (some a) rest

theorem pacerRun_spec_aux (fps : Int) (fs : List WFrame) :
    ∀ h : WFrame, pacerRun fps { buffered := some h, currentStreamID := h.streamID } fs =
      pacerSpec fps (some h) fs := by
  induction fs with
  | nil => intro h; rfl
  | cons a rest ih =>
    intro h
    by_cases hid : a.streamID = h.streamID
    · simp only [pacerRun, pacerStep, hid, ne_eq, not_true_eq_false, if_false, ite_false,
        pacerSpec, if_pos hid]
      rw [← hid]
      simp [ih a]
    · simp only [pacerRun, pacerStep, ne_eq, hid, not_false_iff, if_true, ite_true,
        pacerSpec, if_neg hid]
      simp [ih a]

/-- C3: started empty, the pacing writer behaves exactly as the
specification's one-slot look-ahead description: each held frame is
written with duration `next.captureTime − held.captureTime` (1 µs when
not positive) when the next same-epoch frame arrives, and with duration
`1s/fps` when the arriving frame belongs to a different epoch, the
arriving frame always becoming the new held frame. -/
theorem pacing_writer_correct (fps : Int) (fs : List WFrame) :
    pacerRun fps { buffered := none, currentStreamID := 0 } fs =
      pacerSpec fps none fs := by
  cases fs with
  | nil => rfl
  | cons a rest =>
    simp only [pacerRun, pacerStep, pacerSpec]
    exact congrArg _ (pacerRun_spec_aux fps rest a)

/-- C4 counterexample: two same-epoch frames captured 500 ns apart (at
the default `fps = 30`) make the writer emit a sample of duration
500 ns < 1 µs — the code substitutes 1 µs only when the difference is
not positive, and lets positive sub-microsecond gaps through. -/
theorem sample_duration_cex :
    pacerRun 30 { buffered := none, currentStreamID := 0 }
      [{ data := [1], streamID := 1, captureTime := 0 },
       { data := [2], streamID := 1, captureTime := 500 }] =
      [{ data := [1], duration := 500 }] ∧ (500 : Int) < 1000 := by
  decide

/-- Acceptable inter-frame step for the amended duration bound: the next
frame opens a new epoch, or its capture gap is not positive (then 1 µs is
substituted), or the gap is at least 1 µs. -/
def gapOK (a b : WFrame) : Prop :=
  b.streamID ≠ a.streamID ∨ b.captureTime - a.captureTime ≤ 0 ∨
    1000 ≤ b.captureTime - a.captureTime

theorem pacerRun_duration_aux (fps : Int) (hf1 : 1 ≤ fps) (hf2 : fps ≤ 1000000) :
    ∀ (fs : List WFrame) (h : WFrame), List.Chain gapOK h fs →
      ∀ smp ∈ pacerRun fps { buffered := some h, currentStreamID := h.streamID } fs,
        1000 ≤ smp.duration := by
  have hdiv : 1000 ≤ Int.tdiv 1000000000 fps := by
    rw [Int.tdiv_eq_ediv (by omega) (by omega)]
    rw [Int.le_ediv_iff_mul_le (by omega)]
    nlinarith
  intro fs
  induction fs with
  | nil => intro h _ smp hsmp; simp [pacerRun] at hsmp
  | cons a rest ih =>
    intro h hchain smp hsmp
    rcases hchain with _ | ⟨hab, hrest⟩
    by_cases hid : a.streamID = h.streamID
    · simp only [pacerRun, pacerStep, hid, ne_eq, not_true_eq_false, if_false, ite_false,
        List.mem_append] at hsmp
      rcases hsmp with hsmp | hsmp
      · simp only [List.mem_singleton] at hsmp
        subst hsmp
        rcases hab with hab | hab | hab
        · exact absurd hid hab
        · simp [hab]
        · have : ¬ (a.captureTime - h.captureTime ≤ 0) := by omega
          simp [this]
          omega
      · have := ih a hrest smp
        rw [hid] at this
        exact this hsmp
    · simp only [pacerRun, pacerStep, ne_eq, hid, not_false_iff, if_true, ite_true,
        List.mem_append] at hsmp
      rcases hsmp with hsmp | hsmp
      · simp only [List.mem_singleton] at hsmp
        subst hsmp
        exact hdiv
      · exact ih a hrest smp hsmp

/-- C4 (amended): every sample the pacing writer emits has duration of
at least 1 µs provided `1 ≤ fps ≤ 10^6` (so the epoch-flush duration
`1s/fps` is at least 1 µs) and consecutive same-epoch frames never have
a capture-time gap strictly between 0 and 1 µs (the code substitutes
1 µs only for non-positive gaps).  Without those provisos the bound
fails, as `sample_duration_cex` shows. -/
theorem sample_duration_bound (fps : Int) (fs : List WFrame)
    (hf1 : 1 ≤ fps) (hf2 : fps ≤ 1000000) (hgap : List.Chain' gapOK fs) :
    ∀ smp ∈ pacerRun fps { buffered := none, currentStreamID := 0 } fs,
      1000 ≤ smp.duration := by
  cases fs with
  | nil => intro smp hsmp; simp [pacerRun] at hsmp
  | cons a rest =>
    intro smp hsmp
    simp only [pacerRun, pacerStep, List.nil_append] at hsmp
    exact pacerRun_duration_aux fps hf1 hf2 rest a hgap smp hsmp

/-- Witness for `sample_duration_bound`: two adjacent epochs at the
default framerate, all emitted durations at least 1 µs. -/
theorem sample_duration_bound_witness :
    1000 ≤ ({ data := [1], duration := 33333333 } : MSample).duration := by
  have h := sample_duration_bound 30
    [{ data := [1], streamID := 1, captureTime := 0 },
     { data := [2], streamID := 2, captureTime := 5000 }]
    (by decide) (by decide) (by simp [gapOK])
  exact h { data := [1], duration := 33333333 } (by decide)

/-! ## Screen size (server.ts SetScreenSize, http.go resize case)

The screen geometry is stored in atomics together with the hard-coded
maxima installed by `initScreenSize(3840, 2160)`; the minima are the
constants 320 and 240. -/

/-- Screen-geometry state: current and maximum dimensions. -/
structure ScreenState where
  width : Int
  height : Int
  maxW : Int
  maxH : Int
deriving DecidableEq, Repr

/-- State after `initScreenSize(3840, 2160)`. -/
def initScreen : ScreenState :=
  { width := 3840, height := 2160, maxW := 3840, maxH := 2160 }

/-- Embedding of `SetScreenSize`: reject non-positive dimensions, clamp
below by 320 by 240 and above by the stored maxima (when positive), and
report whether the stored size changed. -/
def SetScreenSize (w h : Int) (s : ScreenState) : Bool × ScreenState :=
  if w ≤ 0 ∨ h ≤ 0 then (false, s)
  else
    let w1 := if w < 320 then 320 else w
    let h1 := if h < 240 then 240 else h
    let w2 := if s.maxW > 0 ∧ w1 > s.maxW then s.maxW else w1
    let h2 := if s.maxH > 0 ∧ h1 > s.maxH then s.maxH else h1
    if w2 = s.width ∧ h2 = s.height then (false, s)
    else (true, { s with width := w2, height := h2 })

/-- Embedding of the `resize` case of `wsHandler`: only when
`SetScreenSize` reports a change does the handler request a display
resize and call `RestartForResize` (which kills the encoder child). -/
def handleResize (w h : Int) (scr : ScreenState) (fs : FfmpegState) :
    ScreenState × FfmpegState :=
  if (SetScreenSize w h scr).1 then
    ((SetScreenSize w h scr).2, (RestartForResize fs).2)
  else ((SetScreenSize w h scr).2, fs)

/-- C7: a resize with `w ≤ 0` or `h ≤ 0` is rejected with the screen
unchanged; otherwise the dimensions are clamped into
`[320, 3840] × [240, 2160]` (with `max`/`min` semantics); a clamped
value equal to the current size is a no-op that reports no change and
kills no encoder child; a different clamped value is stored and the
change is reported. -/
theorem resize_semantics (w h : Int) (scr : ScreenState) (fs : FfmpegState)
    (hmw : scr.maxW = 3840) (hmh : scr.maxH = 2160) :
    (w ≤ 0 ∨ h ≤ 0 →
      SetScreenSize w h scr = (false, scr) ∧
      handleResize w h scr fs = (scr, fs)) ∧
    (0 < w → 0 < h →
      (max 320 (min w 3840) = scr.width ∧ max 240 (min h 2160) = scr.height →
        SetScreenSize w h scr = (false, scr) ∧
        (handleResize w h scr fs).2.deaths = fs.deaths) ∧
      (¬ (max 320 (min w 3840) = scr.width ∧ max 240 (min h 2160) = scr.height) →
        SetScreenSize w h scr = (true, { scr with width := max 320 (min w 3840), height := max 240 (min h 2160) }) ∧
        320 ≤ max 320 (min w 3840) ∧ max 320 (min w 3840) ≤ 3840 ∧
        240 ≤ max 240 (min h 2160) ∧ max 240 (min h 2160) ≤ 2160)) := by
  constructor
  · intro hneg
    have : (SetScreenSize w h scr) = (false, scr) := by
      simp only [SetScreenSize, if_pos hneg]
    refine ⟨this, ?_⟩
    simp [handleResize, this]
  · intro hwpos hhpos
    have hneg : ¬ (w ≤ 0 ∨ h ≤ 0) := by omega
    have hwc : (if scr.maxW > 0 ∧ (if w < 320 then 320 else w) > scr.maxW then scr.maxW
        else if w < 320 then 320 else w) = max 320 (min w 3840) := by
      rw [hmw]
      split <;> split at * <;> omega
    have hhc : (if scr.maxH > 0 ∧ (if h < 240 then 240 else h) > scr.maxH then scr.maxH
        else if h < 240 then 240 else h) = max 240 (min h 2160) := by
      rw [hmh]
      split <;> split at * <;> omega
    constructor
    · intro ⟨hweq, hheq⟩
      have hset : SetScreenSize w h scr = (false, scr) := by
        simp only [SetScreenSize, if_neg hneg]
        rw [hwc, hhc]
        simp [hweq, hheq]
      refine ⟨hset, ?_⟩
      simp [handleResize, hset]
    · intro hne
      have hset : SetScreenSize w h scr = (true, { scr with width := max 320 (min w 3840), height := max 240 (min h 2160) }) := by
        simp only [SetScreenSize, if_neg hneg]
        rw [hwc, hhc]
        simp [hne]
      refine ⟨hset, by omega, by omega, by omega, by omega⟩

/-- Witness for `resize_semantics`: `resize(0,0)` is rejected, and a
resize to the current 3840 times 2160 size reports no change and causes
no death of the encoder child. -/
theorem resize_semantics_witness :
    SetScreenSize 0 0 initScreen = (false, initScreen) ∧
    SetScreenSize 3840 2160 initScreen = (false, initScreen) ∧
    (handleResize 3840 2160 initScreen initFfmpeg).2.deaths = initFfmpeg.deaths := by
  have h1 := (resize_semantics 0 0 initScreen initFfmpeg rfl rfl).1 (by omega)
  have h2 := ((resize_semantics 3840 2160 initScreen initFfmpeg rfl rfl).2
    (by omega) (by omega)).1 (by constructor <;> rfl)
  exact ⟨h1.1, h2.1, h2.2⟩

/-! ## Mouse-button mapping (cmd/server/config.go `execTask` mousebtn
case, cmd/server/input.go `injectMouseButton`)

`xbtn` starts at 1 and the if/else-if chain maps 0, 1, 2 to the X11
buttons 1, 2, 3; any other value keeps the initial 1. -/

/-- X11 button derived from a client button value. -/
def xButtonOf (button : Int) : Int :=
  if button = 0 then 1
  else if button = 1 then 2
  else if button = 2 then 3
  else 1

/-- C10: button 0 maps to X11 button 1, 1 to 2, 2 to 3, and every value
outside `{0, 1, 2}` is not rejected but silently mapped to X11 button 1. -/
theorem mouse_button_mapping :
    xButtonOf 0 = 1 ∧ xButtonOf 1 = 2 ∧ xButtonOf 2 = 3 ∧
    ∀ b : Int, b ≠ 0 → b ≠ 1 → b ≠ 2 → xButtonOf b = 1 := by
  refine ⟨rfl, rfl, rfl, ?_⟩
  intro b h0 h1 h2
  simp [xButtonOf, h0, h1, h2]

/-- Witness for `mouse_button_mapping` at the out-of-range value 5. -/
theorem mouse_button_mapping_witness : xButtonOf 5 = 1 :=
  mouse_button_mapping.2.2.2 5 (by decide) (by decide) (by decide)

/-! ## WebSocket broadcast and the `webrtc_ready` flag (cmd/server/http.go)

`broadcastIVFFrame` walks the clients registry under `clientsMutex`,
skips every client whose `webrtcReady` flag is set, and enqueues the
packet on the others (dropped when the 300-slot queue is full).  The
`webrtc_ready` case of `wsHandler` sets the flag under the same mutex;
connects and disconnects also hold it.  Each mutex-protected section is
one atomic step of the model. -/

/-- Per-connection state: the `webrtcReady` flag and the `sendChan`
contents (capacity 300). -/
structure WSClient where
  webrtcReady : Bool
  sendQueue : List (List Nat)
deriving DecidableEq, Repr

/-- The clients registry and the source of fresh connection keys. -/
structure ServerState where
  clients : List (Nat × WSClient)
  nextId : Nat
deriving DecidableEq, Repr

/-- Atomic registry operations: a connection opening, closing, the
client announcing `webrtc_ready`, and a frame broadcast. -/
inductive SEvent
  | connect
  | disconnect (id : Nat)
  | ready (id : Nat)
  | broadcast (packet : List Nat)
deriving DecidableEq, Repr

/-- One atomic step; returns the new state and the list of
`(connection, packet)` pushes performed on WebSocket send queues. -/
def stepServer (s : ServerState) (e : SEvent) : ServerState × List (Nat × List Nat) :=
  match e with
  | .connect =>
    ({ clients := s.clients ++ [(s.nextId, { webrtcReady := false, sendQueue := [] })],
       nextId := s.nextId + 1 }, [])
  | .disconnect id =>
    ({ s with clients := s.clients.filter (fun p => p.1 ≠ id) }, [])
  | .ready id =>
    ({ s with clients := s.clients.map (fun p =>
        if p.1 = id then (p.1, { p.2 with webrtcReady := true }) else p) }, [])
  | .broadcast packet =>
    ({ s with clients := s.clients.map (fun p =>
        if p.2.webrtcReady then p
        else if p.2.sendQueue.length < 300 then
          (p.1, { p.2 with sendQueue := p.2.sendQueue ++ [packet] })
        else p) },
     (s.clients.filter (fun p => !p.2.webrtcReady && p.2.sendQueue.length < 300)).map
       (fun p => (p.1, packet)))

/-- A whole event sequence; collects every push performed. -/
def runServer (s : ServerState) : List SEvent → ServerState × List (Nat × List Nat)
  | [] => (s, [])
  | e :: rest =>
    ((runServer (stepServer s e).1 rest).1,
     (stepServer s e).2 ++ (runServer (stepServer s e).1 rest).2)

/-- Association lookup in the clients registry. -/
def lookupClient : List (Nat × WSClient) → Nat → Option WSClient
  | [], _ => none
  | p :: rest, id => if p.1 = id then some p.2 else lookupClient rest id

/-- Registry lookup by connection key. -/
def findClient (s : ServerState) (id : Nat) : Option WSClient :=
  lookupClient s.clients id

/-- Well-formedness of the registry: keys are unique and below `nextId`. -/
def WFServer (s : ServerState) : Prop :=
  (s.clients.map Prod.fst).Nodup ∧ ∀ p ∈ s.clients, p.1 < s.nextId

theorem keys_map_ready (s : ServerState) (id : Nat) :
    List.map Prod.fst (s.clients.map (fun p =>
      if p.1 = id then (p.1, { p.2 with webrtcReady := true }) else p)) =
      s.clients.map Prod.fst := by
  rw [List.map_map]
  apply List.map_congr_left
  intro p _
  by_cases hp : p.1 = id <;> simp [hp]

theorem keys_map_broadcast (s : ServerState) (packet : List Nat) :
    List.map Prod.fst (s.clients.map (fun p =>
      if p.2.webrtcReady then p
      else if p.2.sendQueue.length < 300 then
        (p.1, { p.2 with sendQueue := p.2.sendQueue ++ [packet] })
      else p)) = s.clients.map Prod.fst := by
  rw [List.map_map]
  apply List.map_congr_left
  intro p _
  by_cases h1 : p.2.webrtcReady <;> by_cases h2 : p.2.sendQueue.length < 300 <;>
    simp [h1, h2]

theorem step_preserves_WF (s : ServerState) (e : SEvent) :
    WFServer s → WFServer (stepServer s e).1 := by
  rintro ⟨hnd, hlt⟩
  cases e with
  | connect =>
    constructor
    · simp only [stepServer, List.map_append, List.map_cons, List.map_nil]
      rw [List.nodup_append]
      refine ⟨hnd, List.nodup_singleton _, ?_⟩
      intro a ha hb
      simp only [List.mem_singleton] at hb
      subst hb
      obtain ⟨p, hp, hpa⟩ := List.mem_map.mp ha
      have := hlt p hp
      omega
    · intro p hp
      simp only [stepServer, List.mem_append, List.mem_singleton] at hp
      show p.1 < s.nextId + 1
      rcases hp with hp | hp
      · have := hlt p hp
        omega
      · subst hp
        omega
  | disconnect id =>
    constructor
    · simp only [stepServer]
      exact List.Nodup.sublist ((List.filter_sublist _).map Prod.fst) hnd
    · intro p hp
      simp only [stepServer, List.mem_filter] at hp
      show p.1 < s.nextId
      exact hlt p hp.1
  | ready id =>
    constructor
    · simp only [stepServer]
      rw [keys_map_ready]
      exact hnd
    · intro p hp
      have hkey : p.1 ∈ List.map Prod.fst (stepServer s (SEvent.ready id)).1.clients :=
        List.mem_map_of_mem Prod.fst hp
      simp only [stepServer] at hkey
      rw [keys_map_ready] at hkey
      obtain ⟨q, hq, hq1⟩ := List.mem_map.mp hkey
      show p.1 < s.nextId
      rw [← hq1]
      exact hlt q hq
  | broadcast packet =>
    constructor
    · simp only [stepServer]
      rw [keys_map_broadcast]
      exact hnd
    · intro p hp
      have hkey : p.1 ∈ List.map Prod.fst (stepServer s (SEvent.broadcast packet)).1.clients :=
        List.mem_map_of_mem Prod.fst hp
      simp only [stepServer] at hkey
      rw [keys_map_broadcast] at hkey
      obtain ⟨q, hq, hq1⟩ := List.mem_map.mp hkey
      show p.1 < s.nextId
      rw [← hq1]
      exact hlt q hq

/-- Safety of a connection id: every registry entry for it has the
`webrtcReady` flag set (an absent id is vacuously safe). -/
def pairSafe (s : ServerState) (id : Nat) : Prop :=
  ∀ p ∈ s.clients, p.1 = id → p.2.webrtcReady = true

theorem lookup_some_mem (l : List (Nat × WSClient)) (id : Nat) (c : WSClient)
    (hfind : lookupClient l id = some c) : ∃ p ∈ l, p.1 = id ∧ p.2 = c := by
  induction l with
  | nil => simp [lookupClient] at hfind
  | cons q rest ih =>
    by_cases hq : q.1 = id
    · simp only [lookupClient, if_pos hq] at hfind
      exact ⟨q, List.mem_cons_self _ _, hq, by injection hfind⟩
    · simp only [lookupClient, if_neg hq] at hfind
      obtain ⟨p, hp, hpe⟩ := ih hfind
      exact ⟨p, List.mem_cons_of_mem _ hp, hpe⟩

theorem safe_of_lookup (l : List (Nat × WSClient)) (id : Nat) (c : WSClient)
    (hnd : (l.map Prod.fst).Nodup) (hfind : lookupClient l id = some c)
    (hc : c.webrtcReady = true) :
    ∀ p ∈ l, p.1 = id → p.2.webrtcReady = true := by
  induction l with
  | nil => intro p hp; simp at hp
  | cons q rest ih =>
    rw [List.map_cons, List.nodup_cons] at hnd
    intro p hp hpid
    rcases List.mem_cons.mp hp with hpq | hpr
    · subst hpq
      simp only [lookupClient, if_pos hpid] at hfind
      injection hfind with hfind
      rw [hfind]
      exact hc
    · by_cases hq : q.1 = id
      · exfalso
        apply hnd.1
        rw [hq, ← hpid]
        exact List.mem_map_of_mem Prod.fst hpr
      · simp only [lookupClient, if_neg hq] at hfind
        exact ih hnd.2 hfind p hpr hpid

theorem step_nextId_mono (s : ServerState) (e : SEvent) :
    s.nextId ≤ (stepServer s e).1.nextId := by
  cases e <;> simp [stepServer]

theorem step_preserves_safe (s : ServerState) (e : SEvent) (id : Nat)
    (hlt : id < s.nextId) (hsafe : pairSafe s id) :
    pairSafe (stepServer s e).1 id := by
  cases e with
  | connect =>
    intro p hp hpid
    simp only [stepServer, List.mem_append, List.mem_singleton] at hp
    rcases hp with hp | hp
    · exact hsafe p hp hpid
    · subst hp
      simp only at hpid
      omega
  | disconnect did =>
    intro p hp hpid
    simp only [stepServer, List.mem_filter] at hp
    exact hsafe p hp.1 hpid
  | ready rid =>
    intro p hp hpid
    simp only [stepServer, List.mem_map] at hp
    obtain ⟨q, hq, hqe⟩ := hp
    by_cases hqid : q.1 = rid
    · simp only [if_pos hqid] at hqe
      subst hqe
      simp
    · simp only [if_neg hqid] at hqe
      subst hqe
      exact hsafe q hq hpid
  | broadcast packet =>
    intro p hp hpid
    simp only [stepServer, List.mem_map] at hp
    obtain ⟨q, hq, hqe⟩ := hp
    by_cases h1 : q.2.webrtcReady
    · simp only [if_pos h1] at hqe
      subst hqe
      exact hsafe q hq hpid
    · have hqid : q.1 = id := by
        by_cases h2 : q.2.sendQueue.length < 300 <;> simp [h1, h2] at hqe <;>
          rw [← hqe] at hpid <;> exact hpid
      exact absurd (hsafe q hq hqid) (by simpa using h1)

theorem step_pushes_safe (s : ServerState) (e : SEvent) (id : Nat)
    (hsafe : pairSafe s id) : ∀ pr ∈ (stepServer s e).2, pr.1 ≠ id := by
  cases e with
  | connect => intro pr hpr; simp [stepServer] at hpr
  | disconnect did => intro pr hpr; simp [stepServer] at hpr
  | ready rid => intro pr hpr; simp [stepServer] at hpr
  | broadcast packet =>
    intro pr hpr
    simp only [stepServer, List.mem_map, List.mem_filter] at hpr
    obtain ⟨q, ⟨hq, hflt⟩, hqe⟩ := hpr
    subst hqe
    intro hqid
    have := hsafe q hq hqid
    simp [this] at hflt

/-- C9: if a connection's `webrtc_ready` flag is set (its registry entry
holds `webrtcReady = true` under a well-formed registry), then no later
sequence of connects, disconnects, ready messages and frame broadcasts
ever pushes a binary frame packet onto that connection's WebSocket send
queue: every push targets a client whose flag is false at enqueue time. -/
theorem webrtc_ready_gating (s : ServerState) (id : Nat) (evts : List SEvent)
    (hwf : WFServer s) (c : WSClient) (hfind : findClient s id = some c)
    (hready : c.webrtcReady = true) :
    ∀ pr ∈ (runServer s evts).2, pr.1 ≠ id := by
  have hsafe : pairSafe s id := safe_of_lookup s.clients id c hwf.1 hfind hready
  have hlt : id < s.nextId := by
    obtain ⟨p, hp, hpid, _⟩ := lookup_some_mem s.clients id c hfind
    rw [← hpid]
    exact hwf.2 p hp
  clear hwf hfind hready
  induction evts generalizing s with
  | nil => intro pr hpr; simp [runServer] at hpr
  | cons e rest ih =>
    intro pr hpr
    simp only [runServer, List.mem_append] at hpr
    rcases hpr with hpr | hpr
    · exact step_pushes_safe s e id hsafe pr hpr
    · have h1 := step_preserves_safe s e id hlt hsafe
      have h2 : id < (stepServer s e).1.nextId :=
        lt_of_lt_of_le hlt (step_nextId_mono s e)
      exact ih (stepServer s e).1 h1 h2 pr hpr

/-- Witness for `webrtc_ready_gating`: a registry with one ready client
(id 0), followed by a broadcast, a new connection, and another
broadcast; the second broadcast pushes only to the new client (id 1). -/
theorem webrtc_ready_gating_witness : (1 : Nat) ≠ 0 := by
  have h := webrtc_ready_gating
    { clients := [(0, { webrtcReady := true, sendQueue := [] })], nextId := 1 } 0
    [SEvent.broadcast [7], SEvent.connect, SEvent.broadcast [8]]
    (by constructor
        · simp
        · intro p hp
          simp at hp
          subst hp
          simp)
    { webrtcReady := true, sendQueue := [] } rfl rfl
  exact h (1, [8]) (by decide)

/-! ## Input coalescer (cmd/server/config.go `init` worker goroutine)

Queued input tasks are drained by a single worker.  A `mousemove` task
becomes the pending move; while further tasks are queued, newer moves
replace the pending one (coalescing).  When a non-move task interrupts
the run, the pending move is dispatched first — but only if more than
8 ms have passed since the previous move dispatch — then the non-move
task is executed; when the queue runs dry, the pending move is flushed
under the same 8 ms guard.  `lastMouseTime` always holds the time of the
previous move dispatch.

Each queued task is tagged with the wall-clock time `t` (in ms) at which
the worker handles it; the claim quantifies over a whole queued sequence
drained at those times. -/

/-- Payload of an input task, as submitted by the inject functions. -/
inductive IEv
  | move (nx ny : Int)
  | key (k : String) (action : String)
  | btn (b : Int) (action : String)
deriving DecidableEq, Repr

/-- A queued task with the wall-clock time at which the worker handles
it. -/
structure TTask where
  ev : IEv
  t : Int
deriving DecidableEq, Repr

/-- True for pointer-move tasks (`task.Type == "mousemove"`). -/
def isMove (task : TTask) : Bool :=
  match task.ev with
  | .move _ _ => true
  | _ => false

/-- Observable dispatch: an `xdotool` invocation.  `moveDispatch`
records the normalized coordinates handed to `execMouseMove` and the
dispatch time (which becomes the new `lastMouseTime`). -/
inductive IAct
  | moveDispatch (nx ny : Int) (t : Int)
  | keyDispatch (mode : String) (xKey : String)
  | btnDispatch (mode : String) (xbtn : Int)
deriving DecidableEq, Repr

/-- Entries of the `keyMap` dictionary (config.go lines 55-107). -/
def keyMapBase : List (String × String) :=
  [("Control", "Control_L"), ("Shift", "Shift_L"), ("Alt", "Alt_L"),
   ("Meta", "Super_L"), ("Enter", "Return"), ("Backspace", "BackSpace"),
   ("ArrowUp", "Up"), ("ArrowDown", "Down"), ("ArrowLeft", "Left"),
   ("ArrowRight", "Right"), ("Escape", "Escape"), ("Tab", "Tab"),
   ("Home", "Home"), ("End", "End"), ("PageUp", "Page_Up"),
   ("PageDown", "Page_Down"), ("Delete", "Delete"), ("Insert", "Insert"),
   (" ", "space"), ("#", "numbersign"), ("$", "dollar"), ("%", "percent"),
   ("&", "ampersand"), ("(", "parenleft"), (")", "parenright"),
   ("*", "asterisk"), ("+", "plus"), (",", "comma"), ("-", "minus"),
   (".", "period"), ("/", "slash"), (":", "colon"), (";", "semicolon"),
   ("<", "less"), ("=", "equal"), (">", "greater"), ("?", "question"),
   ("@", "at"), ("[", "bracketleft"), ("\\", "backslash"),
   ("]", "bracketright"), ("^", "asciicircum"), ("_", "underscore"),
   ("`", "grave"), ("\x7b", "braceleft"), ("|", "bar"), ("\x7d", "braceright"),
   ("~", "asciitilde"), ("\"", "quotedbl"), ("'", "apostrophe"),
   ("!", "exclam")]

/-- The full key dictionary after the `init` loop adds F1..F12. -/
def keyMapFull : List (String × String) :=
  keyMapBase ++ (List.range 12).map (fun i =>
    ("F" ++ toString (i + 1), "F" ++ toString (i + 1)))

/-- Dictionary lookup `keyMap[task.Key]`. -/
def keyMapLookup (k : String) : Option String :=
  (keyMapFull.find? (fun p => p.1 == k)).map Prod.snd

/-- Character class of the `^[a-zA-Z0-9_\-]+$` pattern. -/
def validNameChar (c : Char) : Bool :=
  c.isAlpha || c.isDigit || c = '_' || c = '-'

/-- Match of `validNameRe` against a key name. -/
def validName (s : String) : Bool :=
  !s.isEmpty && s.toList.all validNameChar

/-- The `len(key) == 1 && key[0] >= 32 && key[0] <= 126` check. -/
def printableSingle (s : String) : Bool :=
  match s.toList with
  | [c] => decide (32 ≤ c.toNat) && decide (c.toNat ≤ 126)
  | _ => false

/-- Embedding of `execTask`: keys are mapped through the dictionary and
dropped when unmapped, failing the name pattern and not printable ASCII;
buttons go through the X11 button mapping; the switch has no `mousemove`
case. -/
def execAct (task : TTask) : List IAct :=
  match task.ev with
  | .move _ _ => []
  | .key k action =>
    let mapped := (keyMapLookup k).isSome
    let xKey := (keyMapLookup k).getD k
    if !mapped && !validName xKey && !printableSingle k then []
    else [IAct.keyDispatch (if action = "keyup" then "keyup" else "keydown") xKey]
  | .btn b action =>
    [IAct.btnDispatch (if action = "mouseup" then "mouseup" else "mousedown")
      (xButtonOf b)]

/-- Dispatch of a pending move (an `execMouseMove` invocation) at
dispatch time `dt`. -/
def moveAct (p : TTask) (dt : Int) : IAct :=
  match p.ev with
  | .move nx ny => IAct.moveDispatch nx ny dt
  | _ => IAct.moveDispatch 0 0 dt

/-- The worker loop with its `pendingMove` state (`none` models the
outer `for task := range inputChan` loop, `some p` models being inside
the drain loop with `pendingMove = p`); `last` is `lastMouseTime`. -/
def workerGo (pending : Option TTask) (last : Int) : List TTask → List IAct
  | [] =>
    match pending with
    | some p => if p.t - last > 8 then [moveAct p p.t] else []
    | none => []
  | task :: rest =>
    match pending with
    | some p =>
      if isMove task then workerGo (some task) last rest
      else if task.t - last > 8 then
        moveAct p task.t :: (execAct task ++ workerGo none task.t rest)
      else
        execAct task ++ workerGo none last rest
    | none =>
      if isMove task then workerGo (some task) last rest
      else execAct task ++ workerGo none last rest

/-- The whole worker on a queued task sequence. -/
def workerRun (last : Int) (ts : List TTask) : List IAct :=
  workerGo none last ts

theorem dropWhile_length_le {α : Type} (p : α → Bool) (l : List α) :
    (l.dropWhile p).length ≤ l.length := by
  induction l with
  | nil => simp
  | cons a t ih =>
    by_cases h : p a
    · rw [List.dropWhile_cons_of_pos h, List.length_cons]
      omega
    · rw [List.dropWhile_cons_of_neg h]

mutual
/-- Modelled from the spec wording of C6: tasks are dispatched FIFO,
except that a contiguous run of pointer moves is collapsed to its last
element, dispatched only when more than 8 ms have passed since the
previous move dispatch. -/
def specWorker (last : Int) (ts : List TTask) : List IAct :=
  match ts with
  | [] => []
  | task :: rest =>
    if isMove task then coalRun task last rest
    else execAct task ++ specWorker last rest
termination_by 2 * ts.length + 1
decreasing_by
  · simp only [List.length_cons]
    omega
  · simp only [List.length_cons]
    omega

/-- Spec-side handling of one contiguous run of moves: `p` is the first
move of the run, the run is `p :: ts.takeWhile isMove`, and only its
last element may be dispatched. -/
def coalRun (p : TTask) (last : Int) (ts : List TTask) : List IAct :=
  let pending := (ts.takeWhile isMove).getLastD p
  let dw := ts.dropWhile isMove
  if hdw : dw = [] then
    if pending.t - last > 8 then [moveAct pending pending.t] else []
  else
    let n := dw.head hdw
    if n.t - last > 8 then
      moveAct pending n.t :: (execAct n ++ specWorker n.t dw.tail)
    else
      execAct n ++ specWorker last dw.tail
termination_by 2 * ts.length + 2
decreasing_by
  all_goals
    have h1 := dropWhile_length_le isMove ts
    simp only [List.length_tail]
    omega
end

/-- True for dispatched pointer moves. -/
def isMoveAct : IAct → Bool
  | .moveDispatch _ _ _ => true
  | _ => false

/-- Dispatch times of the pointer moves in an action list. -/
def moveTimes (acts : List IAct) : List Int :=
  acts.filterMap (fun a =>
    match a with
    | .moveDispatch _ _ t => some t
    | _ => none)

theorem isMoveAct_moveAct (p : TTask) (dt : Int) : isMoveAct (moveAct p dt) = true := by
  cases hp : p.ev <;> simp [moveAct, hp, isMoveAct]

theorem moveTimes_moveAct (p : TTask) (dt : Int) (acts : List IAct) :
    moveTimes (moveAct p dt :: acts) = dt :: moveTimes acts := by
  cases hp : p.ev <;> simp [moveAct, hp, moveTimes]

theorem execAct_no_moves (task : TTask) (htask : isMove task = false) :
    (execAct task).filter (fun a => !isMoveAct a) = execAct task ∧
    moveTimes (execAct task) = [] := by
  cases hev : task.ev with
  | move nx ny => simp [isMove, hev] at htask
  | key k action =>
    simp only [execAct, hev]
    split <;> simp [isMoveAct, moveTimes]
  | btn b action =>
    simp [execAct, hev, isMoveAct, moveTimes]

theorem coalRun_cons_move (p task : TTask) (last : Int) (rest : List TTask)
    (htask : isMove task = true) :
    coalRun p last (task :: rest) = coalRun task last rest := by
  rw [coalRun, coalRun]
  simp only [List.takeWhile_cons_of_pos htask, List.dropWhile_cons_of_pos htask,
    List.getLastD_cons]

theorem workerGo_eq_spec (ts : List TTask) : ∀ last : Int,
    workerGo none last ts = specWorker last ts ∧
    ∀ p : TTask, workerGo (some p) last ts = coalRun p last ts := by
  induction ts with
  | nil =>
    intro last
    constructor
    · rw [specWorker]
      rfl
    · intro p
      rw [coalRun]
      simp only [List.takeWhile_nil, List.dropWhile_nil, List.getLastD_nil]
      rfl
  | cons task rest ih =>
    intro last
    constructor
    · by_cases htask : isMove task
      · rw [specWorker, if_pos htask]
        have hgo : workerGo none last (task :: rest) = workerGo (some task) last rest := by
          simp [workerGo, htask]
        rw [hgo]
        exact (ih last).2 task
      · rw [specWorker, if_neg htask]
        have hgo : workerGo none last (task :: rest) =
            execAct task ++ workerGo none last rest := by
          simp [workerGo, htask]
        rw [hgo, (ih last).1]
    · intro p
      by_cases htask : isMove task
      · have hgo : workerGo (some p) last (task :: rest) =
            workerGo (some task) last rest := by
          simp [workerGo, htask]
        rw [hgo, coalRun_cons_move p task last rest htask]
        exact (ih last).2 task
      · have hgo : workerGo (some p) last (task :: rest) =
            (if task.t - last > 8 then
              moveAct p task.t :: (execAct task ++ workerGo none task.t rest)
            else execAct task ++ workerGo none last rest) := by
          simp [workerGo, htask]
        rw [hgo, coalRun]
        simp only [List.takeWhile_cons_of_neg htask, List.dropWhile_cons_of_neg htask,
          List.getLastD_nil]
        have hne : task :: rest ≠ ([] : List TTask) := by simp
        rw [dif_neg hne]
        simp only [List.head_cons, List.tail_cons]
        by_cases hrate : task.t - last > 8
        · rw [if_pos hrate, if_pos hrate, (ih task.t).1]
        · rw [if_neg hrate, if_neg hrate, (ih last).1]

theorem workerGo_nonmoves (ts : List TTask) :
    ∀ (pending : Option TTask) (last : Int),
      (workerGo pending last ts).filter (fun a => !isMoveAct a) =
        (ts.filter (fun task => !isMove task)).flatMap execAct := by
  induction ts with
  | nil =>
    intro pending last
    cases pending with
    | none => simp [workerGo]
    | some p =>
      have hgo : workerGo (some p) last [] =
          (if p.t - last > 8 then [moveAct p p.t] else []) := by
        simp [workerGo]
      rw [hgo]
      split <;> simp [isMoveAct_moveAct]
  | cons task rest ih =>
    intro pending last
    by_cases htask : isMove task
    · have hfilter : (task :: rest).filter (fun task => !isMove task) =
          rest.filter (fun task => !isMove task) := by
        simp [htask]
      have hgo : ∀ q : Option TTask, workerGo q last (task :: rest) =
          workerGo (some task) last rest := by
        intro q
        cases q <;> simp [workerGo, htask]
      cases pending with
      | none =>
        rw [hgo none, hfilter]
        exact ih (some task) last
      | some p =>
        rw [hgo (some p), hfilter]
        exact ih (some task) last
    · have hbf : isMove task = false := by simpa using htask
      have hexec := execAct_no_moves task hbf
      have hfilter : (task :: rest).filter (fun task => !isMove task) =
          task :: rest.filter (fun task => !isMove task) := by
        simp [hbf]
      cases pending with
      | none =>
        have hgo : workerGo none last (task :: rest) =
            execAct task ++ workerGo none last rest := by
          simp [workerGo, htask]
        rw [hgo, List.filter_append, hexec.1, hfilter, List.flatMap_cons, ih none last]
      | some p =>
        have hgo : workerGo (some p) last (task :: rest) =
            (if task.t - last > 8 then
              moveAct p task.t :: (execAct task ++ workerGo none task.t rest)
            else execAct task ++ workerGo none last rest) := by
          simp [workerGo, htask]
        rw [hgo]
        by_cases hrate : task.t - last > 8
        · rw [if_pos hrate, List.filter_cons_of_neg (by simp [isMoveAct_moveAct]),
            List.filter_append, hexec.1, hfilter, List.flatMap_cons, ih none task.t]
        · rw [if_neg hrate, List.filter_append, hexec.1, hfilter, List.flatMap_cons,
            ih none last]

theorem workerGo_chain (ts : List TTask) :
    ∀ (pending : Option TTask) (last : Int),
      List.Chain' (fun x y => x + 9 ≤ y) (last :: moveTimes (workerGo pending last ts)) := by
  induction ts with
  | nil =>
    intro pending last
    cases pending with
    | none => simp [workerGo, moveTimes]
    | some p =>
      have hgo : workerGo (some p) last [] =
          (if p.t - last > 8 then [moveAct p p.t] else []) := by
        simp [workerGo]
      rw [hgo]
      by_cases hrate : p.t - last > 8
      · rw [if_pos hrate, moveTimes_moveAct]
        simp only [moveTimes, List.filterMap_nil]
        rw [List.chain'_cons]
        exact ⟨by omega, List.chain'_singleton _⟩
      · rw [if_neg hrate]
        simp [moveTimes]
  | cons task rest ih =>
    intro pending last
    by_cases htask : isMove task
    · have hgo : ∀ q : Option TTask, workerGo q last (task :: rest) =
          workerGo (some task) last rest := by
        intro q
        cases q <;> simp [workerGo, htask]
      cases pending with
      | none =>
        rw [hgo none]
        exact ih (some task) last
      | some p =>
        rw [hgo (some p)]
        exact ih (some task) last
    · have hbf : isMove task = false := by simpa using htask
      have hexec := execAct_no_moves task hbf
      have hmt : ∀ l : List IAct, moveTimes (execAct task ++ l) = moveTimes l := by
        intro l
        simp only [moveTimes, List.filterMap_append]
        rw [show (execAct task).filterMap _ = moveTimes (execAct task) from rfl, hexec.2]
        simp
      cases pending with
      | none =>
        have hgo : workerGo none last (task :: rest) =
            execAct task ++ workerGo none last rest := by
          simp [workerGo, htask]
        rw [hgo, hmt]
        exact ih none last
      | some p =>
        have hgo : workerGo (some p) last (task :: rest) =
            (if task.t - last > 8 then
              moveAct p task.t :: (execAct task ++ workerGo none task.t rest)
            else execAct task ++ workerGo none last rest) := by
          simp [workerGo, htask]
        rw [hgo]
        by_cases hrate : task.t - last > 8
        · rw [if_pos hrate, moveTimes_moveAct, hmt]
          rw [List.chain'_cons]
          exact ⟨by omega, ih none task.t⟩
        · rw [if_neg hrate, hmt]
          exact ih none last

theorem chain9_all (h : Int) (l : List Int)
    (hch : List.Chain' (fun x y => x + 9 ≤ y) (h :: l)) : ∀ x ∈ l, h + 9 ≤ x := by
  induction l generalizing h with
  | nil => intro x hx; simp at hx
  | cons b tl ih =>
    rw [List.chain'_cons] at hch
    intro x hx
    rcases List.mem_cons.mp hx with hxb | hxtl
    · subst hxb
      exact hch.1
    · have := ih b hch.2 x hxtl
      have := hch.1
      omega

theorem gapped_window_count (l : List Int) :
    List.Chain' (fun x y => x + 9 ≤ y) l →
    ∀ (a : Int) (T : Nat), 1 ≤ T →
      (l.filter (fun t => decide (a ≤ t) && decide (t < a + (T : Int)))).length ≤
        (T + 7) / 8 := by
  induction l with
  | nil => intro _ a T _; simp
  | cons h tl ih =>
    intro hch a T hT
    have hall : ∀ x ∈ tl, h + 9 ≤ x := chain9_all h tl hch
    have hch2 : List.Chain' (fun x y => x + 9 ≤ y) tl := hch.tail
    by_cases hin : a ≤ h ∧ h < a + (T : Int)
    · rw [List.filter_cons_of_pos (by simp [hin.1, hin.2])]
      rw [List.length_cons]
      by_cases hbig : a + (T : Int) ≤ h + 9
      · have hnil : tl.filter (fun t => decide (a ≤ t) && decide (t < a + (T : Int))) = [] := by
          rw [List.filter_eq_nil_iff]
          intro x hx
          have := hall x hx
          simp only [Bool.and_eq_true, decide_eq_true_eq, not_and]
          intro _
          omega
        rw [hnil]
        simp only [List.length_nil]
        omega
      · have hT2nn : (0 : Int) ≤ a + T - (h + 9) := by omega
        have hfeq : tl.filter (fun t => decide (a ≤ t) && decide (t < a + (T : Int))) =
            tl.filter (fun t => decide (h + 9 ≤ t) &&
              decide (t < (h + 9) + ((a + (T : Int) - (h + 9)).toNat : Int))) := by
          apply List.filter_congr
          intro x hx
          have hx9 := hall x hx
          have htn : ((a + (T : Int) - (h + 9)).toNat : Int) = a + T - (h + 9) :=
            Int.toNat_of_nonneg hT2nn
          rw [htn]
          have hsum : h + 9 + (a + (T : Int) - (h + 9)) = a + T := by ring
          rw [hsum]
          have h1 : decide (a ≤ x) = true := by
            simp only [decide_eq_true_eq]
            omega
          have h2 : decide (h + 9 ≤ x) = true := by
            simp only [decide_eq_true_eq]
            omega
          rw [h1, h2]
        rw [hfeq]
        have hT2ge : 1 ≤ (a + (T : Int) - (h + 9)).toNat := by omega
        have hcount := ih hch2 (h + 9) (a + (T : Int) - (h + 9)).toNat hT2ge
        have htn : ((a + (T : Int) - (h + 9)).toNat : Int) = a + T - (h + 9) :=
          Int.toNat_of_nonneg hT2nn
        have hT2T : (a + (T : Int) - (h + 9)).toNat + 9 ≤ T := by omega
        omega
    · rw [List.filter_cons_of_neg (by simp only [Bool.and_eq_true, decide_eq_true_eq]; omega)]
      exact ih hch2 a T hT

/-- C6: drained by the worker, a queued task sequence is dispatched
FIFO, except that each contiguous run of pointer moves collapses to its
last element (the worker equals the run-collapsing specification
function for every queue and every `lastMouseTime`); the non-move
dispatches are exactly the non-move tasks, in order, untouched by the
coalescer; consecutive move dispatch times (seeded by the previous
dispatch time `last`) always differ by more than 8 ms; hence any
half-open window of `T` milliseconds (`T ≥ 1`) contains at most
`ceil(T/8) = (T+7)/8` move dispatches. -/
theorem coalescer_semantics (last : Int) (ts : List TTask) :
    (workerRun last ts = specWorker last ts) ∧
    ((workerRun last ts).filter (fun a => !isMoveAct a) =
      (ts.filter (fun task => !isMove task)).flatMap execAct) ∧
    List.Chain' (fun x y => x + 9 ≤ y) (last :: moveTimes (workerRun last ts)) ∧
    (∀ (a : Int) (T : Nat), 1 ≤ T →
      ((moveTimes (workerRun last ts)).filter
        (fun t => decide (a ≤ t) && decide (t < a + (T : Int)))).length ≤ (T + 7) / 8) := by
  refine ⟨(workerGo_eq_spec ts last).1, workerGo_nonmoves ts none last,
    workerGo_chain ts none last, ?_⟩
  intro a T hT
  have hch : List.Chain' (fun x y => x + 9 ≤ y) (moveTimes (workerRun last ts)) :=
    (workerGo_chain ts none last).tail
  exact gapped_window_count (moveTimes (workerRun last ts)) hch a T hT

/-- Concrete queue: three coalesced moves, a key, and a trailing move. -/
def tsWitness : List TTask :=
  [{ ev := IEv.move 1 1, t := 10 }, { ev := IEv.move 2 2, t := 10 },
   { ev := IEv.move 3 3, t := 11 }, { ev := IEv.key "a" "keydown", t := 11 },
   { ev := IEv.move 4 4, t := 30 }]

/-- Witness for `coalescer_semantics`: at most `ceil(50/8) = 7` move
dispatches land in the window `[0, 50)` for the concrete queue. -/
theorem coalescer_semantics_witness :
    ((moveTimes (workerRun 0 tsWitness)).filter
      (fun t => decide ((0 : Int) ≤ t) && decide (t < 0 + ((50 : Nat) : Int)))).length ≤
      (50 + 7) / 8 := by
  exact (coalescer_semantics 0 tsWitness).2.2.2 0 50 (by decide)

end LLrdc
